import Mathlib

/-!
Verification development for the show-summary recomputation engine of a
podcast-download analytics worker.

The TypeScript source is shallowly embedded:
* JavaScript objects used as string-keyed maps (`Record<string, T>`) become
  association lists `List (String × T)` that keep JS object key semantics:
  setting an existing key updates it in place, setting a fresh key appends it,
  so the list order is JS insertion/serialization order.
* JS string primitives (`<`, `substring`, `split`) are modelled on the
  underlying character list (`String.data`); for the ASCII data handled here
  this agrees with the JS UTF-16 code-unit semantics.
* Async code is sequentialized; fallible code returns `Except String`.
-/

namespace OP3

instance exceptDecEq {ε α : Type} [DecidableEq ε] [DecidableEq α] :
    DecidableEq (Except ε α) := fun x y =>
  match x, y with
  | .ok a, .ok b =>
    if h : a = b then isTrue (by rw [h]) else isFalse (by intro hh; cases hh; exact h rfl)
  | .error a, .error b =>
    if h : a = b then isTrue (by rw [h]) else isFalse (by intro hh; cases hh; exact h rfl)
  | .ok _, .error _ => isFalse (by intro h; cases h)
  | .error _, .ok _ => isFalse (by intro h; cases h)

/-! ## JS string primitives -/

/-- Model of the JS string comparison `a < b` (lexicographic by code unit). -/
def listLtB : List Char → List Char → Bool
  | [], [] => false
  | [], _ :: _ => true
  | _ :: _, [] => false
  | a :: as, b :: bs => if a < b then true else if b < a then false else listLtB as bs

/-- JS `a < b` on strings. -/
def strLtB (s t : String) : Bool := listLtB s.data t.data

/-- Lexicographic minimum of two strings, via the JS comparison. -/
def strMin (a b : String) : String := if strLtB a b then a else b

/-- Model of JS `s.substring(i, j)` for `i ≤ j` (characters `[i, j)`, clamped). -/
def substringJS (s : String) (i j : Nat) : String := ⟨(s.data.drop i).take (j - i)⟩

/-- Model of JS `s.split(sep)` for a single-character separator, on char lists.
`splitChar sep [] = [[]]`, matching JS `""` `.split` returning `[""]`. -/
def splitChar (sep : Char) : List Char → List (List Char)
  | [] => [[]]
  | c :: rest =>
    match splitChar sep rest with
    | [] => [[]]
    | h :: t => if c = sep then [] :: h :: t else (c :: h) :: t

/-- Model of JS `s.split(sep)` for a single-character separator. -/
def splitJS (s : String) (sep : Char) : List String := (splitChar sep s.data).map String.mk

/-! ## JS object model: association lists with insertion-order semantics -/

/-- JS object property read `m[k]` (first matching key; keys are unique in
objects built by the embedded code). -/
def recordGet {α : Type} : List (String × α) → String → Option α
  | [], _ => none
  | (k₀, v₀) :: rest, k => if k₀ = k then some v₀ else recordGet rest k

/-- JS object property write `m[k] = v`: updates the first matching key in
place (preserving its position) or appends a fresh key at the end. -/
def recordSet {α : Type} : List (String × α) → String → α → List (String × α)
  | [], k, v => [(k, v)]
  | (k₀, v₀) :: rest, k, v =>
    if k₀ = k then (k, v) :: rest else (k₀, v₀) :: recordSet rest k v

/-- The keys of a record, in insertion order. -/
def recordKeys {α : Type} : List (String × α) → List String
  | [] => []
  | p :: rest => p.1 :: recordKeys rest

/-- The record has no duplicate keys (always true of maps built by the code,
since JS objects cannot hold duplicate properties). -/
def keysNodup {α : Type} (m : List (String × α)) : Prop := (recordKeys m).Nodup

instance keysNodup_decidable {α : Type} (m : List (String × α)) : Decidable (keysNodup m) :=
  inferInstanceAs (Decidable (recordKeys m).Nodup)

@[simp] theorem recordGet_nil {α : Type} (k : String) : recordGet ([] : List (String × α)) k = none := rfl

/-- Totalled downloads count lookup, defaulting to 0 (JS `map[key] ?? 0`). -/
def getCount (m : List (String × Nat)) (k : String) : Nat := (recordGet m k).getD 0

/-! ## Summary accumulator (`summaries.ts`)

The source imports `increment`, `incrementAll` and `total` from
`../summaries.ts`, which is not part of this excerpt. -/

/-- Modelled from the spec: `increment(map, key)` from `summaries.ts` — spec
section 4.C: `map[key] = (map[key] ?? 0) + 1`. -/
def increment (m : List (String × Nat)) (k : String) : List (String × Nat) :=
  recordSet m k ((recordGet m k).getD 0 + 1)

/-- Modelled from the spec: `incrementAll(dest, src)` from `summaries.ts` —
spec section 4.C: `dest[k] += src[k]` for every `k` in `src`. -/
def incrementAll (dest src : List (String × Nat)) : List (String × Nat) :=
  src.foldl (fun d p => recordSet d p.1 ((recordGet d p.1).getD 0 + p.2)) dest

/-- Modelled from the spec: `total(map)` from `summaries.ts` — spec
section 4.C: sum of values. -/
def total : List (String × Nat) → Nat
  | [] => 0
  | p :: rest => p.2 + total rest

/-- Sum of the values carried by every entry of `src` whose key is `k`
(several entries can share a key only in hand-written inputs; JS objects
never do). -/
def sumKeyAll (src : List (String × Nat)) (k : String) : Nat :=
  ((src.filter (fun p => p.1 = k)).map Prod.snd).sum

/-! ## Key-order sorting helper (`computeSortedRecord` / `computeSorted`) -/

/-- Key comparison used by `sortBy(Object.entries(record), v => v[0])`:
entry `a` may precede entry `b` when `b`'s key is not JS-less-than `a`'s. -/
def keyLeB {α : Type} (a b : String × α) : Bool := ! strLtB b.1 a.1

/-- From the source: sorts the entries of one record by key (a stable sort,
as `sortBy` from the deno std library); values are not visited. -/
def computeSortedRecord {α : Type} (m : List (String × α)) : List (String × α) :=
  List.insertionSort (fun a b => keyLeB a b = true) m

/-- The record's entries are in ascending key order (adjacent keys
non-decreasing under the JS comparison). -/
def recordSortedAsc {α : Type} (m : List (String × α)) : Prop :=
  List.Pairwise (fun a b => keyLeB a b = true) m

/-! ## Data model (`ShowSummary`, `EpisodeSummary`, TSV records) -/

/-- `EpisodeSummary` from the source: per-episode hourly downloads and the
first hour a download was seen. -/
structure EpisodeSummary where
  hourlyDownloads : List (String × Nat)
  firstHour : String
deriving DecidableEq

/-- `ShowSummary` from the source. `dimensionDownloads` is optional there;
`none` models an absent field (as in a freshly seeded overall summary). -/
structure ShowSummary where
  showUuid : String
  period : String
  hourlyDownloads : List (String × Nat)
  episodes : List (String × EpisodeSummary)
  sources : List (String × String)
  dimensionDownloads : Option (List (String × List (String × Nat))) := none
deriving DecidableEq

/-- One record yielded by `yieldTsvFromStream` for a show-daily blob: a
string-keyed object whose recognized columns are modelled as optional
fields (`none` = column absent in that row). -/
structure TsvRecord where
  time : Option String := none
  episodeId : Option String := none
  audienceId : Option String := none
  botType : Option String := none
  countryCode : Option String := none
  continentCode : Option String := none
  regionName : Option String := none
  agentType : Option String := none
  agentName : Option String := none
  deviceType : Option String := none
  deviceName : Option String := none
  referrerType : Option String := none
  referrerName : Option String := none
  metroCode : Option String := none
  tags : Option String := none
deriving DecidableEq

/-- From the source: `computeSorted` maps over arrays and applies
`computeSortedRecord` to a string record; `computeSortedRecord` sorts only
the entries of the record it is given and does not recurse into the values.
Applied to a summary object it thus reorders the summary's own (fixed) field
names — a JSON serialization detail outside the typed embedding — and
returns every field value, in particular every nested mapping, unchanged. -/
def computeSorted (s : ShowSummary) : ShowSummary := s

/-! ## Daily computer (`computeShowSummaryForDate`) -/

/-- Modelled from the spec: `computeShowDailyKey` from `downloads.ts` (not in
this excerpt) — spec section 6 key layout `show-daily/<uuid>/<uuid>-<date>`
(trailing suffix elided; the key is only used as a provenance map key). -/
def computeShowDailyKey (showUuid date : String) : String :=
  "show-daily/" ++ showUuid ++ "/" ++ showUuid ++ "-" ++ date

/-- Modelled from the spec: `computeTimestamp` from `timestamp.ts` (not in
this excerpt) — the compact timestamp drops non-digits and truncates to 15
characters. -/
def computeTimestamp (time : String) : String :=
  ⟨(time.data.filter (fun c => c.isDigit)).take 15⟩

/-- The four mutable accumulator maps of `computeShowSummaryForDate`. -/
structure DailyAcc where
  hourlyDownloads : List (String × Nat) := []
  episodes : List (String × EpisodeSummary) := []
  audienceTimestamps : List (String × String) := []
  dimensionDownloads : List (String × List (String × Nat)) := []
deriving DecidableEq

/-- The `incrementDimension` closure of `computeShowSummaryForDate`. -/
def incrementDimension (dd : List (String × List (String × Nat))) (dimension key : String) :
    List (String × List (String × Nat)) :=
  recordSet dd dimension (increment ((recordGet dd dimension).getD []) key)

/-- The body of the `for await` loop of `computeShowSummaryForDate`, for one
TSV record, in source order: the `time === undefined` check (throws), the
hour prefix, the `botType` skip, then the hourly / audience / episode /
dimension updates. -/
def processRecord (acc : DailyAcc) (r : TsvRecord) : Except String DailyAcc :=
  match r.time with
  | none => .error "Undefined time"
  | some time =>
    let hour := substringJS time 0 13
    if r.botType.isSome then .ok acc else
    let hourlyDownloads := increment acc.hourlyDownloads hour
    let audienceTimestamps :=
      match r.audienceId with
      | some aid =>
        if aid ≠ "" ∧ (recordGet acc.audienceTimestamps aid).getD "" = "" then
          recordSet acc.audienceTimestamps aid (computeTimestamp time)
        else acc.audienceTimestamps
      | none => acc.audienceTimestamps
    let episodes :=
      match r.episodeId with
      | some eid =>
        let record := match recordGet acc.episodes eid with
          | none => { hourlyDownloads := [], firstHour := hour : EpisodeSummary }
          | some ex => ex
        let record := if strLtB hour record.firstHour then
            { record with firstHour := hour } else record
        recordSet acc.episodes eid
          { record with hourlyDownloads := increment record.hourlyDownloads hour }
      | none => acc.episodes
    let countryCode := r.countryCode.getD "XX"
    let continentCode := r.continentCode.getD "XX"
    let regionName := r.regionName.getD "Unknown"
    let agentType := r.agentType.getD "unknown"
    let agentName := r.agentName.getD "Unknown"
    let dd := incrementDimension acc.dimensionDownloads "countryCode" countryCode
    let dd := match r.metroCode with
      | some mc => if mc ≠ "" then incrementDimension dd "metroCode" mc else dd
      | none => dd
    let dd := if continentCode = "EU" then
        incrementDimension dd "euRegion" (regionName ++ ", " ++ countryCode) else dd
    let dd := if continentCode = "AS" then
        incrementDimension dd "asRegion" (regionName ++ ", " ++ countryCode) else dd
    let dd := if countryCode = "AU" ∨ countryCode = "NZ" then
        incrementDimension dd "auRegion" (regionName ++ ", " ++ countryCode) else dd
    let dd := if countryCode = "CA" then incrementDimension dd "caRegion" regionName else dd
    let dd := if (continentCode = "NA" ∨ continentCode = "SA") ∧ countryCode ≠ "US" ∧ countryCode ≠ "CA" then
        incrementDimension dd "latamRegion" (regionName ++ ", " ++ countryCode) else dd
    let dd := if continentCode = "AF" then
        incrementDimension dd "afRegion" (regionName ++ ", " ++ countryCode) else dd
    let dd := if agentType = "app" then incrementDimension dd "appName" agentName
      else if agentType = "browser" then
        let dd := incrementDimension dd "browserName" agentName
        match r.referrerType with
        | some rt =>
          if rt ≠ "" then
            incrementDimension dd "referrer" (rt ++ "." ++ r.referrerName.getD "Unknown")
          else dd
        | none => dd
      else if agentType = "library" then incrementDimension dd "libraryName" agentName
      else dd
    let dd := incrementDimension dd "deviceType" (r.deviceType.getD "unknown")
    let dd := incrementDimension dd "deviceName" (r.deviceName.getD "Unknown")
    let dd := match r.tags with
      | some tg =>
        if tg ≠ "" then
          (splitJS tg ',').foldl (fun dd tag => incrementDimension dd "tag" tag) dd
        else dd
      | none => dd
    .ok { hourlyDownloads := hourlyDownloads, episodes := episodes,
          audienceTimestamps := audienceTimestamps, dimensionDownloads := dd }

/-- `computeShowSummaryForDate` from the source, given the show-daily blob it
read as `etag` plus the already-parsed TSV record sequence (the streaming TSV
iterator lives in `streams.ts`, outside this excerpt; a missing blob throws
before this point and is not modelled). Returns the summary and the audience
timestamps. -/
def computeShowSummaryForDate (showUuid date etag : String) (records : List TsvRecord) :
    Except String (ShowSummary × List (String × String)) :=
  (records.foldlM processRecord {}).map fun acc =>
    (computeSorted
      { showUuid := showUuid
        period := date
        hourlyDownloads := acc.hourlyDownloads
        episodes := acc.episodes
        sources := [(computeShowDailyKey showUuid date, etag)]
        dimensionDownloads := some acc.dimensionDownloads },
     acc.audienceTimestamps)

/-! ## C4: key order of persisted mappings -/

/-- Executable check that a record's keys are in ascending order (each
adjacent pair non-decreasing under the JS string comparison). -/
def recordKeysAscB {α : Type} : List (String × α) → Bool
  | [] => true
  | [_] => true
  | a :: b :: rest => (! strLtB b.1 a.1) && recordKeysAscB (b :: rest)

/-- Executable check that every mapping inside a summary — hourly downloads,
episodes, each episode's hourly downloads, the dimension map and each of its
sub-maps, and sources — has its keys in ascending order. -/
def summaryMapsSortedB (s : ShowSummary) : Bool :=
  recordKeysAscB s.hourlyDownloads &&
  recordKeysAscB s.episodes &&
  (s.episodes.all fun p => recordKeysAscB p.2.hourlyDownloads) &&
  recordKeysAscB s.sources &&
  (match s.dimensionDownloads with
   | none => true
   | some dd => recordKeysAscB dd && dd.all fun p => recordKeysAscB p.2)

/-! ## Monthly aggregator (`computeShowSummaryAggregate`) -/

/-- The four accumulator maps of `computeShowSummaryAggregate`. -/
structure AggAcc where
  hourlyDownloads : List (String × Nat) := []
  sources : List (String × String) := []
  episodes : List (String × EpisodeSummary) := []
  dimensionDownloads : List (String × List (String × Nat)) := []
deriving DecidableEq

/-- The dimension loop of `computeShowSummaryAggregate`: for each dimension
of the read summary, locate-or-create the output record and `incrementAll`
the read downloads into it. -/
def aggregateDimensions (dd : List (String × List (String × Nat)))
    (src : List (String × List (String × Nat))) : List (String × List (String × Nat)) :=
  src.foldl (fun dd p => recordSet dd p.1 (incrementAll ((recordGet dd p.1).getD []) p.2)) dd

/-- The episode loop of `computeShowSummaryAggregate`: locate-or-create the
output episode, lower its `firstHour` when the read one is smaller, and
`incrementAll` the read hourly downloads into it. -/
def aggregateEpisodes (eps : List (String × EpisodeSummary))
    (src : List (String × EpisodeSummary)) : List (String × EpisodeSummary) :=
  src.foldl
    (fun eps p =>
      let record := match recordGet eps p.1 with
        | none => { hourlyDownloads := [], firstHour := p.2.firstHour : EpisodeSummary }
        | some ex => ex
      let record := if strLtB p.2.firstHour record.firstHour then
          { record with firstHour := p.2.firstHour } else record
      recordSet eps p.1
        { record with hourlyDownloads := incrementAll record.hourlyDownloads p.2.hourlyDownloads })
    eps

/-- The body of the result loop of `computeShowSummaryAggregate`: a missing
blob (`undefined` get result) is skipped with `continue`; a present one is
merged into all four accumulators and its ETag recorded under its key. -/
def aggStep (acc : AggAcc) (kr : String × Option (ShowSummary × String)) : AggAcc :=
  match kr.2 with
  | none => acc
  | some (summary, etag) =>
    { hourlyDownloads := incrementAll acc.hourlyDownloads summary.hourlyDownloads
      dimensionDownloads :=
        aggregateDimensions acc.dimensionDownloads (summary.dimensionDownloads.getD [])
      episodes := aggregateEpisodes acc.episodes summary.episodes
      sources := recordSet acc.sources kr.1 etag }

/-- `computeShowSummaryAggregate` from the source. Each input key's
`statsBlobs.get(key, 'text-and-meta')` outcome is modelled as the optional
(parsed summary, etag) pair beside the key, in input order (the source's
`Promise.all` preserves order). -/
def computeShowSummaryAggregate (showUuid : String)
    (results : List (String × Option (ShowSummary × String))) (outputPeriod : String) :
    ShowSummary :=
  let acc := results.foldl aggStep {}
  computeSorted
    { showUuid := showUuid
      period := outputPeriod
      hourlyDownloads := acc.hourlyDownloads
      episodes := acc.episodes
      sources := acc.sources
      dimensionDownloads := some acc.dimensionDownloads }

/-- The successfully-read inputs: key paired with the summary and etag that
were found, in input order. -/
def successfulReads (results : List (String × Option (ShowSummary × String))) :
    List (String × (ShowSummary × String)) :=
  results.filterMap (fun p => p.2.map (fun r => (p.1, r)))

/-- The count a dimension map holds for dimension `d`, bucket `b` (0 when
either level is absent). -/
def dimBucket (dd : List (String × List (String × Nat))) (d b : String) : Nat :=
  getCount ((recordGet dd d).getD []) b

/-- The C2 property of one aggregation run: missing inputs are skipped with
no effect, the hourly total and every dimension bucket are additive over the
successfully-read summaries, and `sources` maps exactly the
successfully-read keys to their observed ETags. -/
def aggregateAdditivityStatement (showUuid outputPeriod : String)
    (results : List (String × Option (ShowSummary × String))) : Prop :=
  (computeShowSummaryAggregate showUuid results outputPeriod
      = computeShowSummaryAggregate showUuid (results.filter (fun p => p.2.isSome)) outputPeriod)
  ∧ total (computeShowSummaryAggregate showUuid results outputPeriod).hourlyDownloads
      = ((successfulReads results).map (fun p => total p.2.1.hourlyDownloads)).sum
  ∧ (∀ d b : String,
      dimBucket ((computeShowSummaryAggregate showUuid results outputPeriod).dimensionDownloads.getD []) d b
        = ((successfulReads results).map
            (fun p => dimBucket (p.2.1.dimensionDownloads.getD []) d b)).sum)
  ∧ (∀ k : String,
      recordGet (computeShowSummaryAggregate showUuid results outputPeriod).sources k
        = ((successfulReads results).find? (fun q => q.1 == k)).map (fun q => q.2.2))

/-- Concrete aggregation input for the C2 witness: two found daily summaries
around one missing key. -/
def c2WitnessInput : List (String × Option (ShowSummary × String)) :=
  [("summaries/show/u/u-2024-03-01.summary.json",
     some ({ showUuid := "u", period := "2024-03-01",
             hourlyDownloads := [("2024-03-01T10", 3)], episodes := [],
             sources := [], dimensionDownloads := some [("countryCode", [("US", 3)])] }, "e1")),
   ("summaries/show/u/u-2024-03-02.summary.json", none),
   ("summaries/show/u/u-2024-03-03.summary.json",
     some ({ showUuid := "u", period := "2024-03-03",
             hourlyDownloads := [("2024-03-03T11", 5)], episodes := [],
             sources := [], dimensionDownloads := some [("countryCode", [("US", 4), ("MX", 1)])] }, "e3"))]

/-! ## Overall merge (`tryComputeNewOverall`) -/

/-- The episode-map effect of one iteration of the `tryComputeNewOverall`
loop: create the episode with the contributed `firstHour` (and an empty
hourly map) when absent, lower `firstHour` when the contributed one is
smaller, otherwise leave the map unchanged. -/
def mergeEpisodeFirstHour (eps : List (String × EpisodeSummary))
    (p : String × EpisodeSummary) : List (String × EpisodeSummary) :=
  match recordGet eps p.1 with
  | none => recordSet eps p.1 { hourlyDownloads := [], firstHour := p.2.firstHour }
  | some ex =>
    if strLtB p.2.firstHour ex.firstHour then
      recordSet eps p.1 { ex with firstHour := p.2.firstHour }
    else eps

/-- One iteration of the `tryComputeNewOverall` loop carrying the `changed`
flag beside the episode map. -/
def mergeEpisodeStep (acc : List (String × EpisodeSummary) × Bool)
    (p : String × EpisodeSummary) : List (String × EpisodeSummary) × Bool :=
  match recordGet acc.1 p.1 with
  | none => (recordSet acc.1 p.1 { hourlyDownloads := [], firstHour := p.2.firstHour }, true)
  | some ex =>
    if strLtB p.2.firstHour ex.firstHour then
      (recordSet acc.1 p.1 { ex with firstHour := p.2.firstHour }, true)
    else acc

/-- `tryComputeNewOverall` from the source: seed a fresh overall when none
exists (`changed` starts true exactly then), merge every episode of the
month summary by lowering `firstHour`, and return the merged overall only
when something changed. -/
def tryComputeNewOverall (overall : Option ShowSummary) (summary : ShowSummary) :
    Option ShowSummary :=
  let rt0 := match overall with
    | some o => o
    | none => { showUuid := summary.showUuid, period := "overall", episodes := [],
                hourlyDownloads := [], sources := [] }
  let res := summary.episodes.foldl mergeEpisodeStep (rt0.episodes, overall.isNone)
  if res.2 then some { rt0 with episodes := res.1 } else none

/-- The caller's use of `tryComputeNewOverall` (in
`recomputeShowSummariesForMonth`): when it returns a new overall that one is
saved and becomes current, otherwise the stored overall stays. -/
def overallStep (o : Option ShowSummary) (s : ShowSummary) : Option ShowSummary :=
  match tryComputeNewOverall o s with
  | some n => some n
  | none => o

/-- Folding a collection of month summaries into the overall summary, one
aggregate run after another. -/
def foldOverall (prior : Option ShowSummary) (l : List ShowSummary) : Option ShowSummary :=
  l.foldl overallStep prior

/-- Minimum of two optional hours: `none` is the unit, two present hours
take their lexicographic minimum. -/
def optMin : Option String → Option String → Option String
  | none, b => b
  | some a, none => some a
  | some a, some b => some (strMin a b)

/-- The `firstHour` an (optional) overall summary holds for an episode id. -/
def episodeFirstHour (o : Option ShowSummary) (e : String) : Option String :=
  o.bind fun ov => (recordGet ov.episodes e).map (fun ep => ep.firstHour)

/-- The `firstHour` a summary's episode map holds for an episode id. -/
def summaryEpisodeFirstHour (s : ShowSummary) (e : String) : Option String :=
  (recordGet s.episodes e).map (fun ep => ep.firstHour)

/-- The C3 property of one fold of month summaries into the overall: the
resulting `firstHour` for any episode is the `optMin`-combination (the
lexicographic minimum) of the prior overall's entry and every contributor's
entry; permuting the summaries does not change it; and the episode-id set of
the result is the union of the prior's and all contributors'. -/
def overallMergeStatement (prior : Option ShowSummary) (l l' : List ShowSummary) : Prop :=
  ∀ e : String,
    (episodeFirstHour (foldOverall prior l) e
      = l.foldl (fun acc s => optMin (summaryEpisodeFirstHour s e) acc)
          (episodeFirstHour prior e))
    ∧ episodeFirstHour (foldOverall prior l') e = episodeFirstHour (foldOverall prior l) e
    ∧ ((episodeFirstHour (foldOverall prior l) e).isSome = true ↔
        (episodeFirstHour prior e).isSome = true
          ∨ ∃ s ∈ l, (recordGet s.episodes e).isSome = true)

/-! ## Audience reducer (`audience.ts`, `recomputeAudienceForMonth`) -/

/-- A lowercase hexadecimal character. -/
def isLowerHexB (c : Char) : Bool :=
  c.isDigit || (decide ('a' ≤ c) && decide (c ≤ 'f'))

/-- Modelled from the spec: `isValidDate` from `check.ts` (not in this
excerpt) — a date is `YYYY-MM-DD`. -/
def isValidDateB (s : String) : Bool :=
  match s.data with
  | [c1, c2, c3, c4, c5, c6, c7, c8, c9, c10] =>
    c1.isDigit && c2.isDigit && c3.isDigit && c4.isDigit && (c5 == '-')
      && c6.isDigit && c7.isDigit && (c8 == '-') && c9.isDigit && c10.isDigit
  | _ => false

/-- Modelled from the spec: `isValidMonth` from `check.ts` (not in this
excerpt) — a month is `YYYY-MM`. -/
def isValidMonthB (s : String) : Bool :=
  match s.data with
  | [c1, c2, c3, c4, c5, c6, c7] =>
    c1.isDigit && c2.isDigit && c3.isDigit && c4.isDigit && (c5 == '-')
      && c6.isDigit && c7.isDigit
  | _ => false

/-- Modelled from the spec: `isValidUuid` from `uuid.ts` (not in this
excerpt) — a show uuid, 32 lowercase hex characters. -/
def isValidUuidB (s : String) : Bool :=
  (s.data.length == 32) && s.data.all isLowerHexB

/-- The three mutable accumulators of `recomputeAudienceForMonth`:
`audienceTimestamps`, `count`, and the audience summary's
`dailyFoundAudience`. -/
structure AudienceAcc where
  audienceTimestamps : List (String × String) := []
  count : Nat := 0
  dailyFoundAudience : List (String × Nat) := []
deriving DecidableEq

/-- `linePartNum` for `numParts == 4`: the whole line compared against the
single-character strings `'4'`, `'8'`, `'c'`. -/
def linePart4 (line : String) : Nat :=
  if strLtB line "4" then 1 else if strLtB line "8" then 2
  else if strLtB line "c" then 3 else 4

/-- `linePartNum` for `numParts == 8`: thresholds `'2','4','6','8','a','c','e'`. -/
def linePart8 (line : String) : Nat :=
  if strLtB line "2" then 1 else if strLtB line "4" then 2
  else if strLtB line "6" then 3 else if strLtB line "8" then 4
  else if strLtB line "a" then 5 else if strLtB line "c" then 6
  else if strLtB line "e" then 7 else 8

/-- The accepting tail of the audience loop body: slice out
`audienceId = line.substring(0, 64)` and `timestamp = line.substring(65, 80)`,
count the line under its day, and record the timestamp (bumping `count`) when
the id's stored timestamp is still falsy. -/
def acceptAudienceLine (st : AudienceAcc) (date line : String) : AudienceAcc :=
  let audienceId := substringJS line 0 64
  let timestamp := substringJS line 65 80
  let st := { st with dailyFoundAudience := increment st.dailyFoundAudience date }
  if (recordGet st.audienceTimestamps audienceId).getD "" = "" then
    { st with audienceTimestamps := recordSet st.audienceTimestamps audienceId timestamp,
              count := st.count + 1 }
  else st

/-- One line of the audience loop: skip empty lines, apply the shard filter
(rejecting unsupported `numParts`), then accept. -/
def processAudienceLine (partObj : Option (Nat × Nat)) (date : String) (st : AudienceAcc)
    (line : String) : Except String AudienceAcc :=
  if line = "" then .ok st
  else
    match partObj with
    | some (partNum, numParts) =>
      if numParts = 4 then
        if linePart4 line ≠ partNum then .ok st else .ok (acceptAudienceLine st date line)
      else if numParts = 8 then
        if linePart8 line ≠ partNum then .ok st else .ok (acceptAudienceLine st date line)
      else .error ("Unsupported numParts: " ++ toString numParts)
    | none => .ok (acceptAudienceLine st date line)

/-- The reading half of `recomputeAudienceForMonth`: every listed daily
audience blob (modelled, after `unpackAudienceKey`, as its `date` beside its
text lines) has its date validity-checked and its lines streamed through the
loop. -/
def recomputeAudienceCore (partObj : Option (Nat × Nat))
    (inputs : List (String × List String)) : Except String AudienceAcc :=
  inputs.foldlM
    (fun st p =>
      if isValidDateB p.1 then p.2.foldlM (processAudienceLine partObj p.1) st
      else .error ("Bad date: " ++ p.1))
    {}

/-- `contentLength = (64 + 1 + 15 + 1) * count` from the source. -/
def audienceContentLength (st : AudienceAcc) : Nat := (64 + 1 + 15 + 1) * st.count

/-- The monthly audience blob the writer produces: one
`<audienceId>\t<timestamp>\n` line per entry of `audienceTimestamps`, in
first-insertion order (`Object.keys` order). -/
def audienceBlobText (st : AudienceAcc) : String :=
  String.join (st.audienceTimestamps.map (fun p => p.1 ++ "\t" ++ p.2 ++ "\n"))

/-- The byte count `TextEncoder` produces for a string (UTF-8 sizes by code
point). -/
def utf8Len (s : String) : Nat :=
  (s.data.map (fun c =>
    if c.toNat ≤ 127 then 1 else if c.toNat ≤ 2047 then 2
    else if c.toNat ≤ 65535 then 3 else 4)).sum

/-- Whether the loop accepts a line (nonempty and in the configured shard),
for supported configurations. -/
def audienceLineAccepted (partObj : Option (Nat × Nat)) (line : String) : Bool :=
  if line = "" then false
  else match partObj with
    | some (partNum, numParts) =>
      if numParts = 4 then linePart4 line == partNum
      else if numParts = 8 then linePart8 line == partNum
      else false
    | none => true

/-- The pure effect of one line of the audience loop (for supported
configurations, where the loop cannot fail). -/
def audiencePureStep (partObj : Option (Nat × Nat)) (date : String) (st : AudienceAcc)
    (line : String) : AudienceAcc :=
  if audienceLineAccepted partObj line then acceptAudienceLine st date line else st

/-- A shard-configuration argument the source supports without throwing. -/
def supportedPart : Option (Nat × Nat) → Prop
  | none => True
  | some (_, numParts) => numParts = 4 ∨ numParts = 8

/-- The distinct audience ids a (successful) run accepted, in
first-insertion order. -/
def audienceDistinctIds (r : Except String AudienceAcc) : List String :=
  match r with
  | .ok st => recordKeys st.audienceTimestamps
  | .error _ => []

/-- The first character of a line's 64-hex audience id decides its 4-way
shard (spec thresholds). -/
def charPart4 (c : Char) : Nat :=
  if c < '4' then 1 else if c < '8' then 2 else if c < 'c' then 3 else 4

/-- The first character of a line's 64-hex audience id decides its 8-way
shard (spec thresholds). -/
def charPart8 (c : Char) : Nat :=
  if c < '2' then 1 else if c < '4' then 2 else if c < '6' then 3
  else if c < '8' then 4 else if c < 'a' then 5 else if c < 'c' then 6
  else if c < 'e' then 7 else 8

/-- The distinct audience ids currently recorded, in first-insertion order. -/
def audienceIds (st : AudienceAcc) : List String := recordKeys st.audienceTimestamps

/-- The C6 property for a fixed set of daily audience inputs and a supported
shard count: each sharded run and the unsharded run succeed, the sharded
distinct-id sets are pairwise disjoint, their union over `1..numParts` is the
unsharded distinct-id set, and a nonempty line's shard is decided by its
first character alone via the stated thresholds. -/
def shardPartitionStatement (inputs : List (String × List String)) (numParts : Nat) : Prop :=
  ((recomputeAudienceCore none inputs).isOk = true)
  ∧ (∀ partNum : Nat, (recomputeAudienceCore (some (partNum, numParts)) inputs).isOk = true)
  ∧ (∀ p q : Nat, p ≠ q → ∀ id,
      id ∈ audienceDistinctIds (recomputeAudienceCore (some (p, numParts)) inputs) →
        id ∉ audienceDistinctIds (recomputeAudienceCore (some (q, numParts)) inputs))
  ∧ (∀ id, id ∈ audienceDistinctIds (recomputeAudienceCore none inputs) ↔
      ∃ partNum, 1 ≤ partNum ∧ partNum ≤ numParts ∧
        id ∈ audienceDistinctIds (recomputeAudienceCore (some (partNum, numParts)) inputs))
  ∧ (∀ line : String, line ≠ "" →
      (numParts = 4 → linePart4 line = charPart4 line.data.headI)
      ∧ (numParts = 8 → linePart8 line = charPart8 line.data.headI))

/-- First-occurrence deduplication of key/value pairs, keeping first-seen
order, with an accumulator of already-seen keys. -/
def dedupFirstPairsAux (seen : List String) : List (String × String) → List (String × String)
  | [] => []
  | (k, v) :: rest =>
    if k ∈ seen then dedupFirstPairsAux seen rest
    else (k, v) :: dedupFirstPairsAux (k :: seen) rest

/-- First-occurrence deduplication of key/value pairs in first-seen order. -/
def dedupFirstPairs (l : List (String × String)) : List (String × String) :=
  dedupFirstPairsAux [] l

/-- The (audienceId, timestamp) slices of every line the loop accepts, in
input order. -/
def acceptedAudiencePairs (partObj : Option (Nat × Nat))
    (inputs : List (String × List String)) : List (String × String) :=
  inputs.flatMap fun p =>
    (p.2.filter (fun line => audienceLineAccepted partObj line)).map
      (fun line => (substringJS line 0 64, substringJS line 65 80))

/-- A line shaped as the audience files' contract requires: 64 lowercase hex
characters, one tab, 15 digit characters. -/
def audienceLineWellFormedB (line : String) : Bool :=
  (line.data.length == 80) && ((line.data.take 64).all isLowerHexB)
    && ((line.data.drop 64).take 1 == ['\t']) && ((line.data.drop 65).all (fun c => c.isDigit))

/-- The C7 property of one audience run: it succeeds, its
`audienceTimestamps` map is exactly the first-occurrence deduplication of
the accepted `(audienceId, timestamp)` slices in first-insertion order,
`count` is that map's size, `contentLength = (64 + 1 + 15 + 1) × count`, and
the emitted blob is the corresponding `<id>\t<timestamp>\n` lines whose
UTF-8 byte length is exactly `contentLength`. -/
def audienceBlobStatement (partObj : Option (Nat × Nat))
    (inputs : List (String × List String)) : Prop :=
  ((recomputeAudienceCore partObj inputs).isOk = true)
  ∧ ∀ st, recomputeAudienceCore partObj inputs = .ok st →
      st.audienceTimestamps = dedupFirstPairs (acceptedAudiencePairs partObj inputs)
      ∧ st.count = (dedupFirstPairs (acceptedAudiencePairs partObj inputs)).length
      ∧ audienceContentLength st = (64 + 1 + 15 + 1) * st.count
      ∧ audienceBlobText st = String.join
          ((dedupFirstPairs (acceptedAudiencePairs partObj inputs)).map
            (fun q => q.1 ++ "\t" ++ q.2 ++ "\n"))
      ∧ utf8Len (audienceBlobText st) = audienceContentLength st

/-! ## Phase coordinator request parser -/

/-- `isPhase` from the source: the recognized phase tokens. -/
def isPhase (v : String) : Bool :=
  v == "dailies" || v == "aggregates" || v == "audience" || v == "audience-1of4"
    || v == "audience-2of4" || v == "audience-3of4" || v == "audience-4of4"

/-- Modelled from the spec: `tryParseInt` from `check.ts` (not in this
excerpt) — parses a nonnegative decimal integer, `undefined` otherwise. -/
def tryParseIntModel : Option String → Option Nat
  | none => none
  | some str =>
    if str ≠ "" ∧ str.data.all (fun c => c.isDigit) then
      some (str.data.foldl (fun n c => n * 10 + (c.toNat - 48)) 0)
    else none

/-- `RecomputeShowSummariesForMonthRequest` from the source (phase tokens
kept as the strings that passed `isPhase`). -/
structure RecomputeShowSummariesForMonthRequest where
  showUuid : String
  month : String
  log : Bool
  sequential : Bool
  phases : Option (List String)
  startDay : Option Nat
  maxDays : Option Nat
deriving DecidableEq

/-- `tryParseRecomputeShowSummariesForMonthRequest` from the source: on the
matching path and operation kind (with parameters present), `check` the show
uuid and month (throwing on failure), read the flag set, and split the
phases string keeping only recognized tokens (`filter(isPhase)`); other
requests yield `undefined` (`none`). -/
def tryParseRecomputeShowSummariesForMonthRequest (operationKind targetPath : String)
    (parameters : Option (List (String × String))) :
    Except String (Option RecomputeShowSummariesForMonthRequest) :=
  match parameters with
  | some ps =>
    if targetPath = "/work/recompute-show-summaries" ∧ operationKind = "update" then
      match recordGet ps "show" with
      | none => .error "Bad show"
      | some showUuid =>
        if isValidUuidB showUuid then
          match recordGet ps "month" with
          | none => .error "Bad month"
          | some month =>
            if isValidMonthB month then
              let flags := splitJS ((recordGet ps "flags").getD "") ','
              let phases := match recordGet ps "phases" with
                | some str =>
                  if str ≠ "" then some ((splitJS str ',').filter isPhase) else none
                | none => none
              .ok (some
                { showUuid := showUuid
                  month := month
                  log := flags.contains "log"
                  sequential := flags.contains "sequential"
                  phases := phases
                  startDay := tryParseIntModel (recordGet ps "startDay")
                  maxDays := tryParseIntModel (recordGet ps "maxDays") })
            else .error "Bad month"
        else .error "Bad show"
    else .ok none
  | none => .ok none

/-! ## Audience write retry discipline -/

/-- The outcome the blob adapter gives one `put` call: success, or a failure
that the adapter's classifier marks retryable or not. -/
inductive PutResult
  | ok : PutResult
  | err : Bool → PutResult
deriving DecidableEq

/-- Modelled from the spec: `executeWithRetries` from `sleep.ts` (not in this
excerpt) — run the operation, and while the failure is classified retryable
and retries remain, run it again; `f n` is attempt `n`'s outcome, the error
carries the classifier's verdict. -/
def executeWithRetries (f : Nat → PutResult) : Nat → Nat → Except Bool Unit
  | attempt, retriesLeft =>
    match f attempt, retriesLeft with
    | .ok, _ => .ok ()
    | .err true, n + 1 => executeWithRetries f (attempt + 1) n
    | .err r, _ => .error r

/-- The source's `putAudienceWithRetries`: the audience-blob put wrapped in
`executeWithRetries` with `maxRetries: 2`. -/
def putAudienceWithRetries (f : Nat → PutResult) : Except Bool Unit :=
  executeWithRetries f 0 2

/-- The source's `putAudienceSummary`: one unretried put of the audience
summary. -/
def putAudienceSummaryOnce (g : PutResult) : Except Bool Unit :=
  match g with
  | .ok => .ok ()
  | .err r => .error r

/-- The source's `Promise.all([ putAudienceWithRetries(), putAudienceSummary() ])`,
sequentialized: both outcomes side by side. -/
def audienceWritePhase (f : Nat → PutResult) (g : PutResult) :
    Except Bool Unit × Except Bool Unit :=
  (putAudienceWithRetries f, putAudienceSummaryOnce g)

/-- `Promise.all` resolves only when both writes resolved. -/
def audienceWritesSucceed (p : Except Bool Unit × Except Bool Unit) : Bool :=
  p.1.isOk && p.2.isOk

/-! ## Audience key layout (`computeAudienceKey` / the listing prefix) -/

/-- `computeAudienceKey` from the source:
`audiences/show/<uuid>/<uuid>-<period>.<part ?? all>.audience.txt`. -/
def computeAudienceKey (showUuid period : String) (part : Option String) : String :=
  "audiences/show/" ++ showUuid ++ "/" ++ showUuid ++ "-" ++ period ++ "." ++ (part.getD "all")
    ++ ".audience.txt"

/-- `computeAudienceKeyPrefix` from the source: the listing prefix
`audiences/show/<uuid>/<uuid>-<month>-`, ending in a dash. -/
def computeAudienceKeyPrefix (showUuid month : String) : String :=
  "audiences/show/" ++ showUuid ++ "/" ++ showUuid ++ "-" ++ month ++ "-"

/-- The C10 property for one show and month: the listing prefix used to
gather the reducer's inputs matches a daily audience key exactly when the
key's date lies in the month (date starts with `<month>-`), and matches no
monthly audience output key (for any month and any part), so a re-run never
ingests a previously written monthly output. -/
def listingIsolationStatement (u m : String) : Prop :=
  (∀ d : String, isValidDateB d = true →
    ((computeAudienceKeyPrefix u m).data <+: (computeAudienceKey u d none).data ↔
      (m ++ "-").data <+: d.data))
  ∧ (∀ m' : String, isValidMonthB m' = true → ∀ part : Option String,
      ¬ (computeAudienceKeyPrefix u m).data <+: (computeAudienceKey u m' part).data)

/-! ## Theorems -/

/-! Basic facts about the JS comparison. -/

theorem listLtB_asymm : ∀ {a b : List Char}, listLtB a b = true → listLtB b a = false
  | [], [], h => by simp [listLtB] at h
  | [], _ :: _, _ => by simp [listLtB]
  | _ :: _, [], h => by simp [listLtB] at h
  | a :: as, b :: bs, h => by
    by_cases hab : a < b
    · simp [listLtB, hab, asymm hab]
    · by_cases hba : b < a
      · simp [listLtB, hab, hba] at h
      · simp only [listLtB, if_neg hab, if_neg hba] at h
        simp [listLtB, hab, hba, listLtB_asymm h]

theorem eq_of_listLtB_false : ∀ {a b : List Char},
    listLtB a b = false → listLtB b a = false → a = b
  | [], [], _, _ => rfl
  | [], _ :: _, h, _ => by simp [listLtB] at h
  | _ :: _, [], _, h => by simp [listLtB] at h
  | a :: as, b :: bs, h, h' => by
    by_cases hab : a < b
    · simp [listLtB, hab] at h
    · by_cases hba : b < a
      · simp [listLtB, hba, asymm hba] at h'
      · simp only [listLtB, if_neg hab, if_neg hba] at h
        simp only [listLtB, if_neg hba, if_neg hab] at h'
        have hc : a = b := le_antisymm (not_lt.mp hba) (not_lt.mp hab)
        rw [hc, eq_of_listLtB_false h h']

theorem strLtB_asymm {a b : String} (h : strLtB a b = true) : strLtB b a = false :=
  listLtB_asymm h

theorem strEq_of_strLtB_false {a b : String} (h : strLtB a b = false)
    (h' : strLtB b a = false) : a = b := by
  cases a; cases b
  exact congrArg String.mk (eq_of_listLtB_false h h')

theorem listLtB_trans {a : List Char} : ∀ {b c : List Char},
    listLtB a b = true → listLtB b c = true → listLtB a c = true := by
  induction a with
  | nil =>
    intro b c h h'
    cases c with
    | nil =>
      cases b with
      | nil => simp [listLtB] at h
      | cons x xs => simp [listLtB] at h'
    | cons x xs => rfl
  | cons a as ih =>
    intro b c h h'
    cases b with
    | nil => simp [listLtB] at h
    | cons b bs =>
      cases c with
      | nil => simp [listLtB] at h'
      | cons c cs =>
        by_cases hab : a < b
        · by_cases hbc : b < c
          · simp [listLtB, lt_trans hab hbc]
          · by_cases hcb : c < b
            · simp [listLtB, hbc, hcb] at h'
            · have hec : b = c := le_antisymm (not_lt.mp hcb) (not_lt.mp hbc)
              subst hec
              simp [listLtB, hab]
        · by_cases hba : b < a
          · simp [listLtB, hab, hba] at h
          · have he : a = b := le_antisymm (not_lt.mp hba) (not_lt.mp hab)
            subst he
            simp only [listLtB, if_neg hab, if_neg hba] at h
            by_cases hac : a < c
            · simp [listLtB, hac]
            · by_cases hca : c < a
              · simp [listLtB, hac, hca] at h'
              · simp only [listLtB, if_neg hac, if_neg hca] at h' ⊢
                exact ih h h'

theorem listLtB_neg_trans {a b c : List Char} (hab : listLtB a b = false)
    (hbc : listLtB b c = false) : listLtB a c = false := by
  cases hba : listLtB b a
  · rw [eq_of_listLtB_false hab hba]; exact hbc
  · cases hcb : listLtB c b
    · rw [← eq_of_listLtB_false hbc hcb]; exact hab
    · exact listLtB_asymm (listLtB_trans hcb hba)

theorem strMin_comm (a b : String) : strMin a b = strMin b a := by
  unfold strMin
  cases hab : strLtB a b
  · cases hba : strLtB b a
    · simp [strEq_of_strLtB_false hab hba]
    · simp
  · simp [strLtB_asymm hab]

theorem strMin_assoc (a b c : String) : strMin (strMin a b) c = strMin a (strMin b c) := by
  unfold strMin
  cases hab : strLtB a b
  · cases hbc : strLtB b c
    · have hac : strLtB a c = false := listLtB_neg_trans hab hbc
      simp [hab, hbc, hac]
    · simp [hab, hbc]
  · cases hbc : strLtB b c
    · simp [hab, hbc]
    · have hac : strLtB a c = true := listLtB_trans hab hbc
      simp [hab, hbc, hac]

theorem recordGet_recordSet_self {α : Type} (m : List (String × α)) (k : String) (v : α) :
    recordGet (recordSet m k v) k = some v := by
  induction m with
  | nil => simp [recordSet, recordGet]
  | cons p rest ih =>
    obtain ⟨k₀, v₀⟩ := p
    by_cases h : k₀ = k
    · simp [recordSet, recordGet, h]
    · simp [recordSet, recordGet, h, ih]

theorem recordGet_recordSet_ne {α : Type} (m : List (String × α)) (k k' : String) (v : α)
    (h : k ≠ k') : recordGet (recordSet m k v) k' = recordGet m k' := by
  induction m with
  | nil => simp [recordSet, recordGet, h]
  | cons p rest ih =>
    obtain ⟨k₀, v₀⟩ := p
    by_cases h₀ : k₀ = k
    · subst h₀
      simp [recordSet, recordGet, h]
    · simp [recordSet, recordGet, h₀, ih]

theorem recordKeys_recordSet_of_none {α : Type} {m : List (String × α)} {k : String} (v : α)
    (h : recordGet m k = none) : recordKeys (recordSet m k v) = recordKeys m ++ [k] := by
  induction m with
  | nil => simp [recordSet, recordKeys]
  | cons p rest ih =>
    obtain ⟨k₀, v₀⟩ := p
    by_cases h₀ : k₀ = k
    · simp [recordGet, h₀] at h
    · simp only [recordGet, if_neg h₀] at h
      simp [recordSet, recordKeys, h₀, ih h, recordKeys]

theorem recordKeys_recordSet_of_some {α : Type} {m : List (String × α)} {k : String} {w : α}
    (v : α) (h : recordGet m k = some w) : recordKeys (recordSet m k v) = recordKeys m := by
  induction m with
  | nil => simp [recordGet] at h
  | cons p rest ih =>
    obtain ⟨k₀, v₀⟩ := p
    by_cases h₀ : k₀ = k
    · simp [recordSet, recordKeys, h₀]
    · simp only [recordGet, if_neg h₀] at h
      simp [recordSet, recordKeys, h₀, ih h, recordKeys]

theorem recordGet_none_iff {α : Type} (m : List (String × α)) (k : String) :
    recordGet m k = none ↔ k ∉ recordKeys m := by
  induction m with
  | nil => simp [recordGet, recordKeys]
  | cons p rest ih =>
    obtain ⟨k₀, v₀⟩ := p
    by_cases h : k₀ = k
    · simp [recordGet, recordKeys, h]
    · simp [recordGet, recordKeys, h, ih, Ne.symm h]

theorem mem_recordKeys_recordSet {α : Type} (m : List (String × α)) (k k' : String) (v : α) :
    k' ∈ recordKeys (recordSet m k v) ↔ k' ∈ recordKeys m ∨ k' = k := by
  cases h : recordGet m k with
  | none => simp [recordKeys_recordSet_of_none v h]
  | some w =>
    rw [recordKeys_recordSet_of_some v h]
    have hk : k ∈ recordKeys m := by
      by_contra hk
      rw [← recordGet_none_iff] at hk
      rw [h] at hk
      cases hk
    constructor
    · exact Or.inl
    · rintro (hm | rfl)
      · exact hm
      · exact hk

theorem keysNodup_recordSet {α : Type} (m : List (String × α)) (k : String) (v : α)
    (h : keysNodup m) : keysNodup (recordSet m k v) := by
  unfold keysNodup
  cases h' : recordGet m k with
  | none =>
    rw [recordKeys_recordSet_of_none v h']
    rw [List.nodup_append]
    refine ⟨h, List.nodup_singleton k, ?_⟩
    intro a ha hb
    simp at hb
    subst hb
    exact (recordGet_none_iff m a).mp h' ha
  | some w => rw [recordKeys_recordSet_of_some v h']; exact h

theorem total_recordSet_add (m : List (String × Nat)) (k : String) (v : Nat) :
    total (recordSet m k ((recordGet m k).getD 0 + v)) = total m + v := by
  induction m with
  | nil => simp [recordSet, recordGet, total]
  | cons p rest ih =>
    obtain ⟨k₀, v₀⟩ := p
    by_cases h : k₀ = k
    · simp [recordSet, recordGet, total, h]
      omega
    · simp [recordSet, recordGet, total, h, ih]
      omega

theorem total_increment (m : List (String × Nat)) (k : String) :
    total (increment m k) = total m + 1 :=
  total_recordSet_add m k 1

theorem total_incrementAll (dest src : List (String × Nat)) :
    total (incrementAll dest src) = total dest + total src := by
  induction src generalizing dest with
  | nil => simp [incrementAll, total]
  | cons p rest ih =>
    obtain ⟨k, v⟩ := p
    show total (incrementAll (recordSet dest k ((recordGet dest k).getD 0 + v)) rest) = _
    rw [ih, total_recordSet_add]
    simp [total]
    omega

theorem getCount_recordSet_self (m : List (String × Nat)) (k : String) (v : Nat) :
    getCount (recordSet m k v) k = v := by
  simp [getCount, recordGet_recordSet_self]

theorem getCount_recordSet_ne (m : List (String × Nat)) (k k' : String) (v : Nat)
    (h : k ≠ k') : getCount (recordSet m k v) k' = getCount m k' := by
  simp [getCount, recordGet_recordSet_ne m k k' v h]

theorem getCount_incrementAll (dest src : List (String × Nat)) (k : String) :
    getCount (incrementAll dest src) k = getCount dest k + sumKeyAll src k := by
  induction src generalizing dest with
  | nil => simp [incrementAll, sumKeyAll]
  | cons p rest ih =>
    obtain ⟨k₀, v₀⟩ := p
    show getCount (incrementAll (recordSet dest k₀ ((recordGet dest k₀).getD 0 + v₀)) rest) k = _
    rw [ih]
    by_cases h : k₀ = k
    · subst h
      rw [getCount_recordSet_self]
      simp [sumKeyAll, getCount]
      omega
    · rw [getCount_recordSet_ne dest k₀ k _ h]
      simp [sumKeyAll, h]

theorem sumKeyAll_of_nodup (src : List (String × Nat)) (k : String) (h : keysNodup src) :
    sumKeyAll src k = getCount src k := by
  induction src with
  | nil => simp [sumKeyAll, getCount, recordGet]
  | cons p rest ih =>
    obtain ⟨k₀, v₀⟩ := p
    have hcons := h
    simp only [keysNodup, recordKeys, List.nodup_cons] at hcons
    have hrest : keysNodup rest := hcons.2
    have hih := ih hrest
    by_cases hk : k₀ = k
    · subst hk
      have hnone : recordGet rest k₀ = none :=
        (recordGet_none_iff rest k₀).mpr hcons.1
      have hz : sumKeyAll rest k₀ = 0 := by
        rw [hih]; simp [getCount, hnone]
      simp only [sumKeyAll, List.filter_cons] at hz ⊢
      simp only [getCount, recordGet, if_pos rfl]
      simp [hz, sumKeyAll] at *
    · have hgoal := hih
      simp only [sumKeyAll, getCount, recordGet] at hgoal ⊢
      simp [hk, hgoal]

theorem getCount_incrementAll_nodup (dest src : List (String × Nat)) (k : String)
    (h : keysNodup src) :
    getCount (incrementAll dest src) k = getCount dest k + getCount src k := by
  rw [getCount_incrementAll, sumKeyAll_of_nodup src k h]

theorem recordSortedAsc_computeSortedRecord {α : Type} (m : List (String × α)) :
    recordSortedAsc (computeSortedRecord m) := by
  have htot : IsTotal (String × α) (fun a b => keyLeB a b = true) := by
    constructor
    intro a b
    unfold keyLeB
    cases h : strLtB b.1 a.1
    · simp
    · simp [strLtB_asymm h]
  have htrans : IsTrans (String × α) (fun a b => keyLeB a b = true) := by
    constructor
    intro a b c hab hbc
    unfold keyLeB at *
    simp only [Bool.not_eq_true'] at *
    exact listLtB_neg_trans hbc hab
  exact @List.sorted_insertionSort _ _ _ htot htrans m

theorem computeSortedRecord_perm {α : Type} (m : List (String × α)) :
    (computeSortedRecord m).Perm m :=
  List.perm_insertionSort _ m

theorem processRecord_hourly (acc acc' : DailyAcc) (r : TsvRecord)
    (h : processRecord acc r = .ok acc') :
    total acc'.hourlyDownloads =
      total acc.hourlyDownloads + (if r.botType = none then 1 else 0) := by
  unfold processRecord at h
  cases ht : r.time with
  | none => rw [ht] at h; cases h
  | some time =>
    rw [ht] at h
    cases hbt : r.botType with
    | some b =>
      rw [hbt] at h
      simp at h
      simp [hbt, ← h]
    | none =>
      rw [hbt] at h
      simp at h
      rw [← h]
      simp only [if_pos rfl]
      exact total_increment acc.hourlyDownloads (substringJS time 0 13)

theorem total_hourly_foldlM (records : List TsvRecord) (acc acc' : DailyAcc)
    (h : records.foldlM processRecord acc = .ok acc') :
    total acc'.hourlyDownloads =
      total acc.hourlyDownloads + (records.filter (fun r => r.botType = none)).length := by
  induction records generalizing acc with
  | nil =>
    simp only [List.foldlM] at h
    cases h
    simp
  | cons r rest ih =>
    simp only [List.foldlM] at h
    cases hp : processRecord acc r with
    | error e => rw [hp] at h; cases h
    | ok acc₁ =>
      rw [hp] at h
      have hstep := processRecord_hourly acc acc₁ r hp
      have htail := ih acc₁ h
      by_cases hbt : r.botType = none
      · simp [List.filter_cons, hbt] at hstep ⊢
        omega
      · simp [List.filter_cons, hbt] at hstep ⊢
        omega

/-- C1: whenever `computeShowSummaryForDate` returns a summary (rather than
failing), the total of `summary.hourlyDownloads` equals the number of TSV
records of the source daily blob whose `botType` is unset; bot-flagged
records contribute to no count. -/
theorem c1_dailyTotalEqualsNonBotRows (showUuid date etag : String) (records : List TsvRecord)
    (h : (computeShowSummaryForDate showUuid date etag records).isOk = true) :
    (computeShowSummaryForDate showUuid date etag records).map
        (fun p => total p.1.hourlyDownloads)
      = .ok ((records.filter (fun r => r.botType = none)).length) := by
  unfold computeShowSummaryForDate at h ⊢
  cases hf : records.foldlM processRecord {} with
  | error e => rw [hf] at h; simp [Except.map, Except.isOk, Except.toBool] at h
  | ok acc =>
    have := total_hourly_foldlM records {} acc hf
    simp only [hf, Except.map]
    simp only [computeSorted]
    have h0 : total (({} : DailyAcc).hourlyDownloads) = 0 := rfl
    rw [h0] at this
    simp [this]

theorem c1_witness :
    ((computeShowSummaryForDate "show1" "2024-03-05" "etag1"
        [{ time := some "2024-03-05T10:01:00.000Z" },
         { time := some "2024-03-05T11:00:00.000Z", botType := some "bot" }]).isOk = true)
    ∧ (computeShowSummaryForDate "show1" "2024-03-05" "etag1"
        [{ time := some "2024-03-05T10:01:00.000Z" },
         { time := some "2024-03-05T11:00:00.000Z", botType := some "bot" }]).map
          (fun p => total p.1.hourlyDownloads) = .ok 1 :=
  ⟨by decide, c1_dailyTotalEqualsNonBotRows "show1" "2024-03-05" "etag1" _ (by decide)⟩

/-- C5 counterexample: the claim says a bot record lacking a `time` field is
skipped rather than failing, but the source checks `time === undefined` (and
throws) before the `botType` skip, so a timeless bot record fails the whole
daily computation. -/
theorem c5_counterexample :
    computeShowSummaryForDate "show1" "2024-03-05" "etag1" [{ botType := some "bot" }]
      = .error "Undefined time" := rfl

/-- C5 (amended): a bot-flagged record that carries a `time` field is skipped
entirely — processing it returns the accumulator unchanged, contributing to
no hourly, episode, dimension, or audience output and never failing; a bot
record lacking `time` fails instead, because the time-presence check runs
before the bot skip. -/
theorem c5_amended (acc : DailyAcc) (r : TsvRecord) (hb : r.botType.isSome = true)
    (ht : r.time.isSome = true) : processRecord acc r = .ok acc := by
  unfold processRecord
  cases hti : r.time with
  | none => rw [hti] at ht; cases ht
  | some t => simp [hb]

theorem c5_witness :
    (({ botType := some "bot", time := some "2024-03-05T10:01:00.000Z" } : TsvRecord).botType.isSome = true)
    ∧ (({ botType := some "bot", time := some "2024-03-05T10:01:00.000Z" } : TsvRecord).time.isSome = true)
    ∧ processRecord {} { botType := some "bot", time := some "2024-03-05T10:01:00.000Z" } = .ok {} :=
  ⟨rfl, rfl, c5_amended {} _ rfl rfl⟩

/-- C4 counterexample: a daily summary built from two rows whose hours arrive
out of order is persisted with `hourlyDownloads` keys in insertion order
(`…T11` before `…T10`), not ascending — `computeSorted` never reaches the
nested mappings. -/
theorem c4_counterexample :
    (computeShowSummaryForDate "show1" "2024-03-05" "etag1"
        [{ time := some "2024-03-05T11:00:00.000Z" },
         { time := some "2024-03-05T10:00:00.000Z" }]).map
        (fun p => summaryMapsSortedB p.1)
      = .ok false := by decide

/-- C4 (amended): the sorting helper applied before persisting sorts only the
record it is directly given — `computeSortedRecord` produces an
ascending-key permutation of its input — but `computeSorted` does not recurse
into record values, so on the typed summary it is the identity: the nested
mappings are persisted in insertion order, and the overall summary after a
merge is not passed through it at all. -/
theorem c4_amended :
    (∀ s : ShowSummary, computeSorted s = s)
    ∧ (∀ (α : Type) (m : List (String × α)),
        recordSortedAsc (computeSortedRecord m) ∧ (computeSortedRecord m).Perm m) :=
  ⟨fun _ => rfl,
   fun _ m => ⟨recordSortedAsc_computeSortedRecord m, computeSortedRecord_perm m⟩⟩

theorem aggStep_none {acc : AggAcc} {p : String × Option (ShowSummary × String)}
    (hp : p.2 = none) : aggStep acc p = acc := by
  simp [aggStep, hp]

theorem foldl_aggStep_filter (results : List (String × Option (ShowSummary × String)))
    (acc : AggAcc) :
    results.foldl aggStep acc = (results.filter (fun p => p.2.isSome)).foldl aggStep acc := by
  induction results generalizing acc with
  | nil => rfl
  | cons p rest ih =>
    cases hp : p.2 with
    | none => simp [List.filter_cons, hp, aggStep_none hp, ih]
    | some r => simp [List.filter_cons, hp, List.foldl_cons, ih]

theorem total_hourly_foldl_aggStep (results : List (String × Option (ShowSummary × String)))
    (acc : AggAcc) :
    total (results.foldl aggStep acc).hourlyDownloads =
      total acc.hourlyDownloads +
        ((successfulReads results).map (fun p => total p.2.1.hourlyDownloads)).sum := by
  induction results generalizing acc with
  | nil => simp [successfulReads]
  | cons p rest ih =>
    cases hp : p.2 with
    | none =>
      simp [List.foldl_cons, aggStep_none hp, ih, successfulReads, List.filterMap_cons, hp]
    | some r =>
      have ha : (aggStep acc p).hourlyDownloads =
          incrementAll acc.hourlyDownloads r.1.hourlyDownloads := by
        simp [aggStep, hp]
      rw [List.foldl_cons, ih, ha, total_incrementAll]
      simp [successfulReads, List.filterMap_cons, hp]
      omega

theorem dimBucket_cons_self (dim d b : String) (downloads : List (String × Nat))
    (rest : List (String × List (String × Nat))) (h : dim = d) :
    dimBucket ((dim, downloads) :: rest) d b = getCount downloads b := by
  simp [dimBucket, recordGet, h]

theorem dimBucket_aggregateDimensions (dd src : List (String × List (String × Nat)))
    (d b : String) (houter : keysNodup src) (hinner : ∀ q ∈ src, keysNodup q.2) :
    dimBucket (aggregateDimensions dd src) d b = dimBucket dd d b + dimBucket src d b := by
  induction src generalizing dd with
  | nil => simp [aggregateDimensions, dimBucket, getCount, recordGet]
  | cons p rest ih =>
    obtain ⟨dim, downloads⟩ := p
    have hnod := houter
    simp only [keysNodup, recordKeys, List.nodup_cons] at hnod
    have houter' : keysNodup rest := hnod.2
    have hinner' : ∀ q ∈ rest, keysNodup q.2 := fun q hq => hinner q (List.mem_cons_of_mem _ hq)
    show dimBucket (aggregateDimensions
        (recordSet dd dim (incrementAll ((recordGet dd dim).getD []) downloads)) rest) d b = _
    rw [ih _ houter' hinner']
    by_cases hdim : dim = d
    · subst hdim
      have h1 : dimBucket (recordSet dd dim (incrementAll ((recordGet dd dim).getD []) downloads)) dim b
          = getCount (incrementAll ((recordGet dd dim).getD []) downloads) b := by
        simp [dimBucket, recordGet_recordSet_self]
      have h2 : getCount (incrementAll ((recordGet dd dim).getD []) downloads) b
          = dimBucket dd dim b + getCount downloads b := by
        rw [getCount_incrementAll_nodup _ _ _ (hinner ⟨dim, downloads⟩ (List.mem_cons_self _ _))]
        rfl
      have h3 : dimBucket rest dim b = 0 := by
        have : recordGet rest dim = none := (recordGet_none_iff rest dim).mpr hnod.1
        simp [dimBucket, this, getCount, recordGet]
      rw [h1, h2, h3, dimBucket_cons_self dim dim b downloads rest rfl]
      omega
    · have h1 : dimBucket (recordSet dd dim (incrementAll ((recordGet dd dim).getD []) downloads)) d b
          = dimBucket dd d b := by
        simp [dimBucket, recordGet_recordSet_ne _ _ _ _ hdim]
      have h4 : dimBucket ((dim, downloads) :: rest) d b = dimBucket rest d b := by
        simp [dimBucket, recordGet, hdim]
      rw [h1, h4]

theorem dimBucket_foldl_aggStep (results : List (String × Option (ShowSummary × String)))
    (acc : AggAcc) (d b : String)
    (hdims : ∀ p ∈ successfulReads results,
      keysNodup (p.2.1.dimensionDownloads.getD []) ∧
        ∀ q ∈ p.2.1.dimensionDownloads.getD [], keysNodup q.2) :
    dimBucket (results.foldl aggStep acc).dimensionDownloads d b =
      dimBucket acc.dimensionDownloads d b +
        ((successfulReads results).map
          (fun p => dimBucket (p.2.1.dimensionDownloads.getD []) d b)).sum := by
  induction results generalizing acc with
  | nil => simp [successfulReads]
  | cons p rest ih =>
    cases hp : p.2 with
    | none =>
      have hdims' : ∀ q ∈ successfulReads rest, _ := fun q hq => hdims q (by
        simp [successfulReads, List.filterMap_cons, hp] at hq ⊢
        exact hq)
      rw [List.foldl_cons, aggStep_none hp, ih _ hdims']
      simp [successfulReads, List.filterMap_cons, hp]
    | some r =>
      have hmem : (p.1, r) ∈ successfulReads (p :: rest) := by
        simp [successfulReads, List.filterMap_cons, hp]
      have hdims' : ∀ q ∈ successfulReads rest, _ := fun q hq => hdims q (by
        simp [successfulReads, List.filterMap_cons, hp] at hq ⊢
        tauto)
      have ha : (aggStep acc p).dimensionDownloads =
          aggregateDimensions acc.dimensionDownloads (r.1.dimensionDownloads.getD []) := by
        simp [aggStep, hp]
      rw [List.foldl_cons, ih _ hdims', ha,
        dimBucket_aggregateDimensions _ _ d b (hdims _ hmem).1 (hdims _ hmem).2]
      simp [successfulReads, List.filterMap_cons, hp]
      omega

theorem sources_foldl_aggStep_not_mem (results : List (String × Option (ShowSummary × String)))
    (acc : AggAcc) (k : String) (h : k ∉ results.map Prod.fst) :
    recordGet (results.foldl aggStep acc).sources k = recordGet acc.sources k := by
  induction results generalizing acc with
  | nil => rfl
  | cons p rest ih =>
    simp only [List.map_cons, List.mem_cons] at h
    push_neg at h
    cases hp : p.2 with
    | none => rw [List.foldl_cons, aggStep_none hp]; exact ih acc h.2
    | some r =>
      have ha : (aggStep acc p).sources = recordSet acc.sources p.1 r.2 := by
        simp [aggStep, hp]
      rw [List.foldl_cons, ih _ h.2, ha, recordGet_recordSet_ne _ _ _ _ (fun he => h.1 he.symm)]

theorem sources_foldl_aggStep (results : List (String × Option (ShowSummary × String)))
    (acc : AggAcc) (k : String) (hnd : (results.map Prod.fst).Nodup) :
    recordGet (results.foldl aggStep acc).sources k =
      match (successfulReads results).find? (fun q => q.1 == k) with
      | some q => some q.2.2
      | none => recordGet acc.sources k := by
  induction results generalizing acc with
  | nil => rfl
  | cons p rest ih =>
    simp only [List.map_cons, List.nodup_cons] at hnd
    cases hp : p.2 with
    | none =>
      rw [List.foldl_cons, aggStep_none hp, ih _ hnd.2]
      simp [successfulReads, List.filterMap_cons, hp]
    | some r =>
      have ha : (aggStep acc p).sources = recordSet acc.sources p.1 r.2 := by
        simp [aggStep, hp]
      by_cases hk : p.1 = k
      · subst hk
        have hnotin : p.1 ∉ rest.map Prod.fst := hnd.1
        rw [List.foldl_cons, sources_foldl_aggStep_not_mem rest _ p.1 hnotin, ha,
          recordGet_recordSet_self]
        simp [successfulReads, List.filterMap_cons, hp, List.find?_cons]
      · rw [List.foldl_cons, ih _ hnd.2, ha]
        have hget : (recordGet (recordSet acc.sources p.1 r.2) k) = recordGet acc.sources k :=
          recordGet_recordSet_ne _ _ _ _ hk
        have hsr : successfulReads (p :: rest) = (p.1, r) :: successfulReads rest := by
          simp [successfulReads, List.filterMap_cons, hp]
        rw [hsr, List.find?_cons]
        have hbeq : ((p.1, r).1 == k) = false := by
          simp [hk]
        rw [hbeq]
        cases hfind : (successfulReads rest).find? (fun q => q.1 == k) <;>
          simp [hfind, hget]

/-- C2: in `computeShowSummaryAggregate`, input keys whose blob is missing
are silently skipped (dropping them changes nothing), the emitted total of
`hourlyDownloads` is the sum of the successfully-read daily totals, every
dimension bucket is likewise additive, and `sources` maps exactly the
successfully-read keys to their observed ETags. -/
theorem c2_aggregateAdditivity (showUuid outputPeriod : String)
    (results : List (String × Option (ShowSummary × String)))
    (hnd : (results.map Prod.fst).Nodup)
    (hdims : ∀ p ∈ successfulReads results,
      keysNodup (p.2.1.dimensionDownloads.getD []) ∧
        ∀ q ∈ p.2.1.dimensionDownloads.getD [], keysNodup q.2) :
    aggregateAdditivityStatement showUuid outputPeriod results := by
  refine ⟨?_, ?_, ?_, ?_⟩
  · unfold computeShowSummaryAggregate
    rw [foldl_aggStep_filter]
  · unfold computeShowSummaryAggregate computeSorted
    have := total_hourly_foldl_aggStep results {}
    simpa [total] using this
  · intro d b
    unfold computeShowSummaryAggregate computeSorted
    have := dimBucket_foldl_aggStep results {} d b hdims
    simpa [dimBucket, getCount, recordGet] using this
  · intro k
    unfold computeShowSummaryAggregate computeSorted
    have := sources_foldl_aggStep results {} k hnd
    cases hf : (successfulReads results).find? (fun q => q.1 == k) <;>
      · rw [hf] at this
        simpa using this

theorem c2_witness :
    ((c2WitnessInput.map Prod.fst).Nodup
      ∧ (∀ p ∈ successfulReads c2WitnessInput,
          keysNodup (p.2.1.dimensionDownloads.getD []) ∧
            ∀ q ∈ p.2.1.dimensionDownloads.getD [], keysNodup q.2))
    ∧ aggregateAdditivityStatement "u" "2024-03" c2WitnessInput :=
  ⟨⟨by decide, by decide⟩,
   c2_aggregateAdditivity "u" "2024-03" c2WitnessInput (by decide) (by decide)⟩

theorem optMin_none_right (a : Option String) : optMin a none = a := by
  cases a <;> rfl

theorem optMin_comm (a b : Option String) : optMin a b = optMin b a := by
  cases a <;> cases b <;> simp [optMin, strMin_comm]

theorem optMin_assoc (a b c : Option String) :
    optMin (optMin a b) c = optMin a (optMin b c) := by
  cases a <;> cases b <;> cases c <;> simp [optMin, strMin_assoc]

theorem optMin_left_comm (a b c : Option String) :
    optMin a (optMin b c) = optMin b (optMin a c) := by
  rw [← optMin_assoc, optMin_comm a b, optMin_assoc]

theorem optMin_isSome (a b : Option String) :
    (optMin a b).isSome = (a.isSome || b.isSome) := by
  cases a <;> cases b <;> rfl

theorem foldl_mergeEpisodeStep_fst (entries : List (String × EpisodeSummary))
    (eps : List (String × EpisodeSummary)) (b : Bool) :
    (entries.foldl mergeEpisodeStep (eps, b)).1 = entries.foldl mergeEpisodeFirstHour eps := by
  induction entries generalizing eps b with
  | nil => rfl
  | cons p rest ih =>
    cases hg : recordGet eps p.1 with
    | none => simp [List.foldl_cons, mergeEpisodeStep, mergeEpisodeFirstHour, hg, ih]
    | some ex =>
      by_cases hlt : strLtB p.2.firstHour ex.firstHour = true
      · simp [List.foldl_cons, mergeEpisodeStep, mergeEpisodeFirstHour, hg, hlt, ih]
      · simp [List.foldl_cons, mergeEpisodeStep, mergeEpisodeFirstHour, hg, hlt, ih]

theorem foldl_mergeEpisodeStep_flag_mono (entries : List (String × EpisodeSummary))
    (eps : List (String × EpisodeSummary)) :
    (entries.foldl mergeEpisodeStep (eps, true)).2 = true := by
  induction entries generalizing eps with
  | nil => rfl
  | cons p rest ih =>
    cases hg : recordGet eps p.1 with
    | none => simp [List.foldl_cons, mergeEpisodeStep, hg, ih]
    | some ex =>
      by_cases hlt : strLtB p.2.firstHour ex.firstHour = true
      · simp [List.foldl_cons, mergeEpisodeStep, hg, hlt, ih]
      · simp [List.foldl_cons, mergeEpisodeStep, hg, hlt, ih]

theorem foldl_mergeEpisodeStep_of_flag_false (entries : List (String × EpisodeSummary))
    (eps : List (String × EpisodeSummary))
    (h : (entries.foldl mergeEpisodeStep (eps, false)).2 = false) :
    entries.foldl mergeEpisodeFirstHour eps = eps := by
  induction entries generalizing eps with
  | nil => rfl
  | cons p rest ih =>
    cases hg : recordGet eps p.1 with
    | none =>
      rw [List.foldl_cons] at h
      simp only [mergeEpisodeStep, hg] at h
      rw [foldl_mergeEpisodeStep_flag_mono] at h
      cases h
    | some ex =>
      by_cases hlt : strLtB p.2.firstHour ex.firstHour = true
      · rw [List.foldl_cons] at h
        simp only [mergeEpisodeStep, hg, hlt, if_pos] at h
        rw [foldl_mergeEpisodeStep_flag_mono] at h
        cases h
      · rw [List.foldl_cons] at h
        simp only [mergeEpisodeStep, hg, hlt, if_neg] at h
        simp only [List.foldl_cons, mergeEpisodeFirstHour, hg, hlt, if_neg]
        exact ih eps h

theorem episodeFH_mergeEpisodeFirstHour (eps : List (String × EpisodeSummary))
    (p : String × EpisodeSummary) (e : String) :
    (recordGet (mergeEpisodeFirstHour eps p) e).map (fun ep => ep.firstHour) =
      if p.1 = e then
        optMin (some p.2.firstHour) ((recordGet eps e).map (fun ep => ep.firstHour))
      else (recordGet eps e).map (fun ep => ep.firstHour) := by
  unfold mergeEpisodeFirstHour
  cases hg : recordGet eps p.1 with
  | none =>
    by_cases he : p.1 = e
    · subst he
      rw [recordGet_recordSet_self]
      simp [hg, optMin]
    · rw [recordGet_recordSet_ne _ _ _ _ he]
      simp [he]
  | some ex =>
    by_cases hlt : strLtB p.2.firstHour ex.firstHour = true
    · simp only [hlt, if_pos]
      by_cases he : p.1 = e
      · subst he
        rw [recordGet_recordSet_self]
        simp [hg, optMin, strMin, hlt]
      · rw [recordGet_recordSet_ne _ _ _ _ he]
        simp [he]
    · simp only [hlt, if_neg, Bool.false_eq_true]
      by_cases he : p.1 = e
      · subst he
        simp [hg, optMin, strMin, hlt]
      · simp [he]

theorem episodeFH_foldl_merge (entries : List (String × EpisodeSummary))
    (eps : List (String × EpisodeSummary)) (e : String) (hnd : keysNodup entries) :
    (recordGet (entries.foldl mergeEpisodeFirstHour eps) e).map (fun ep => ep.firstHour) =
      optMin ((recordGet entries e).map (fun ep => ep.firstHour))
        ((recordGet eps e).map (fun ep => ep.firstHour)) := by
  induction entries generalizing eps with
  | nil => simp [recordGet, optMin]
  | cons p rest ih =>
    have hnod := hnd
    simp only [keysNodup, recordKeys, List.nodup_cons] at hnod
    have hrest : keysNodup rest := hnod.2
    rw [List.foldl_cons, ih _ hrest]
    by_cases he : p.1 = e
    · have hnone : recordGet rest e = none := by
        rw [recordGet_none_iff]
        rw [← he]
        intro hmem
        exact hnod.1 (by
          clear * - hmem
          induction rest with
          | nil => simp [recordKeys] at hmem
          | cons q qrest ihq =>
            simp only [recordKeys, List.mem_cons] at hmem ⊢
            rcases hmem with h | h
            · exact Or.inl h
            · exact Or.inr (ihq h))
      rw [episodeFH_mergeEpisodeFirstHour, if_pos he, hnone]
      have hhead : recordGet (p :: rest) e = some p.2 := by
        simp [recordGet, he]
      rw [hhead]
      simp [optMin]
    · rw [episodeFH_mergeEpisodeFirstHour, if_neg he]
      have hhead : recordGet (p :: rest) e = recordGet rest e := by
        simp [recordGet, he]
      rw [hhead]

theorem episodeFH_overallStep (o : Option ShowSummary) (s : ShowSummary) (e : String)
    (hnd : keysNodup s.episodes) :
    episodeFirstHour (overallStep o s) e =
      optMin (summaryEpisodeFirstHour s e) (episodeFirstHour o e) := by
  unfold overallStep tryComputeNewOverall
  cases o with
  | none =>
    have hflag := foldl_mergeEpisodeStep_flag_mono s.episodes ([] : List (String × EpisodeSummary))
    have hfst := foldl_mergeEpisodeStep_fst s.episodes ([] : List (String × EpisodeSummary)) true
    simp only [Option.isNone_none]
    rw [hflag] at *
    simp only [hflag, if_pos]
    simp only [episodeFirstHour, Option.bind_some, Option.some_bind]
    rw [hfst, episodeFH_foldl_merge s.episodes [] e hnd]
    simp [recordGet, optMin, summaryEpisodeFirstHour, optMin_none_right]
  | some ov =>
    simp only [Option.isNone_some]
    cases hres : (s.episodes.foldl mergeEpisodeStep (ov.episodes, false)).2 with
    | true =>
      simp only [hres, if_pos]
      simp only [episodeFirstHour, Option.some_bind]
      rw [foldl_mergeEpisodeStep_fst, episodeFH_foldl_merge s.episodes ov.episodes e hnd]
      rfl
    | false =>
      have hunch := foldl_mergeEpisodeStep_of_flag_false s.episodes ov.episodes hres
      have hch := episodeFH_foldl_merge s.episodes ov.episodes e hnd
      rw [hunch] at hch
      simp [hres, episodeFirstHour, summaryEpisodeFirstHour]
      exact hch

theorem episodeFH_foldOverall (prior : Option ShowSummary) (l : List ShowSummary) (e : String)
    (hnd : ∀ s ∈ l, keysNodup s.episodes) :
    episodeFirstHour (foldOverall prior l) e =
      l.foldl (fun acc s => optMin (summaryEpisodeFirstHour s e) acc)
        (episodeFirstHour prior e) := by
  induction l generalizing prior with
  | nil => rfl
  | cons s rest ih =>
    have hs : keysNodup s.episodes := hnd s (List.mem_cons_self _ _)
    have hrest : ∀ t ∈ rest, keysNodup t.episodes :=
      fun t ht => hnd t (List.mem_cons_of_mem _ ht)
    show episodeFirstHour (foldOverall (overallStep prior s) rest) e = _
    rw [ih _ hrest, episodeFH_overallStep prior s e hs]
    rfl

theorem foldl_optMin_isSome (l : List ShowSummary) (e : String) (init : Option String) :
    (l.foldl (fun acc s => optMin (summaryEpisodeFirstHour s e) acc) init).isSome = true ↔
      init.isSome = true ∨ ∃ s ∈ l, (recordGet s.episodes e).isSome = true := by
  induction l generalizing init with
  | nil => simp
  | cons s rest ih =>
    rw [List.foldl_cons, ih]
    rw [optMin_isSome]
    simp only [Bool.or_eq_true, List.mem_cons]
    constructor
    · rintro (h | h)
      · rcases h with h | h
        · right; exact ⟨s, Or.inl rfl, by simpa [summaryEpisodeFirstHour] using h⟩
        · left; exact h
      · rcases h with ⟨t, ht, hsome⟩
        right; exact ⟨t, Or.inr ht, hsome⟩
    · rintro (h | ⟨t, ht, hsome⟩)
      · left; right; exact h
      · rcases ht with rfl | ht
        · left; left; simpa [summaryEpisodeFirstHour] using hsome
        · right; exact ⟨t, ht, hsome⟩

/-- C3: merging month summaries into the overall via `tryComputeNewOverall`
is order-independent — for any prior overall (or none) and any finite
collection of month summaries (each a JS object, so with duplicate-free
episode keys), the folded overall assigns every episode the lexicographic
minimum `firstHour` across the prior overall and all contributors, any
permutation of the collection folds to the same per-episode `firstHour`, and
the episode-id set is the union of the prior's and the contributors'. -/
theorem c3_overallMergeOrderIndependent (prior : Option ShowSummary)
    (l l' : List ShowSummary) (hnd : ∀ s ∈ l, keysNodup s.episodes)
    (hperm : l.Perm l') : overallMergeStatement prior l l' := by
  intro e
  have hnd' : ∀ s ∈ l', keysNodup s.episodes := fun s hs => hnd s (hperm.symm.subset hs)
  have h₁ := episodeFH_foldOverall prior l e hnd
  have h₂ := episodeFH_foldOverall prior l' e hnd'
  have hrc : RightCommutative (fun acc s => optMin (summaryEpisodeFirstHour s e) acc) :=
    ⟨fun b a₁ a₂ => optMin_left_comm _ _ _⟩
  have hfold := @List.Perm.foldl_eq _ _
    (fun acc s => optMin (summaryEpisodeFirstHour s e) acc) _ _ hrc hperm
    (episodeFirstHour prior e)
  refine ⟨h₁, ?_, ?_⟩
  · rw [h₁, h₂, hfold]
  · rw [h₁]
    exact foldl_optMin_isSome l e (episodeFirstHour prior e)

theorem c3_witness :
    ((∀ s ∈ [({ showUuid := "u", period := "2024-01", hourlyDownloads := [],
                episodes := [("e1", { hourlyDownloads := [], firstHour := "2024-01-15T12" })],
                sources := [] } : ShowSummary),
              { showUuid := "u", period := "2024-02", hourlyDownloads := [],
                episodes := [("e1", { hourlyDownloads := [], firstHour := "2024-02-10T00" }),
                             ("e2", { hourlyDownloads := [], firstHour := "2024-03-01T00" })],
                sources := [] }], keysNodup s.episodes)
      ∧ List.Perm
          [({ showUuid := "u", period := "2024-01", hourlyDownloads := [],
              episodes := [("e1", { hourlyDownloads := [], firstHour := "2024-01-15T12" })],
              sources := [] } : ShowSummary),
           { showUuid := "u", period := "2024-02", hourlyDownloads := [],
             episodes := [("e1", { hourlyDownloads := [], firstHour := "2024-02-10T00" }),
                          ("e2", { hourlyDownloads := [], firstHour := "2024-03-01T00" })],
             sources := [] }]
          [({ showUuid := "u", period := "2024-02", hourlyDownloads := [],
              episodes := [("e1", { hourlyDownloads := [], firstHour := "2024-02-10T00" }),
                           ("e2", { hourlyDownloads := [], firstHour := "2024-03-01T00" })],
              sources := [] } : ShowSummary),
           { showUuid := "u", period := "2024-01", hourlyDownloads := [],
             episodes := [("e1", { hourlyDownloads := [], firstHour := "2024-01-15T12" })],
             sources := [] }])
    ∧ overallMergeStatement none
        [({ showUuid := "u", period := "2024-01", hourlyDownloads := [],
            episodes := [("e1", { hourlyDownloads := [], firstHour := "2024-01-15T12" })],
            sources := [] } : ShowSummary),
         { showUuid := "u", period := "2024-02", hourlyDownloads := [],
           episodes := [("e1", { hourlyDownloads := [], firstHour := "2024-02-10T00" }),
                        ("e2", { hourlyDownloads := [], firstHour := "2024-03-01T00" })],
           sources := [] }]
        [({ showUuid := "u", period := "2024-02", hourlyDownloads := [],
            episodes := [("e1", { hourlyDownloads := [], firstHour := "2024-02-10T00" }),
                         ("e2", { hourlyDownloads := [], firstHour := "2024-03-01T00" })],
            sources := [] } : ShowSummary),
         { showUuid := "u", period := "2024-01", hourlyDownloads := [],
           episodes := [("e1", { hourlyDownloads := [], firstHour := "2024-01-15T12" })],
           sources := [] }] :=
  ⟨⟨by decide, by decide⟩,
   c3_overallMergeOrderIndependent none _ _ (by decide) (by decide)⟩

theorem listLtB_nil_right (cs : List Char) : listLtB cs [] = false := by
  cases cs <;> rfl

theorem listLtB_singleton (c : Char) (cs : List Char) (b : Char) :
    listLtB (c :: cs) [b] = decide (c < b) := by
  by_cases h : c < b
  · simp [listLtB, h]
  · by_cases h' : b < c
    · simp [listLtB, h, h']
    · simp [listLtB, h, h', listLtB_nil_right]

theorem linePart4_head (line : String) (h : line ≠ "") :
    linePart4 line = charPart4 line.data.headI := by
  obtain ⟨data⟩ := line
  cases data with
  | nil => exact absurd rfl h
  | cons c cs =>
    have e1 : strLtB (String.mk (c :: cs)) "4" = decide (c < '4') := listLtB_singleton c cs '4'
    have e2 : strLtB (String.mk (c :: cs)) "8" = decide (c < '8') := listLtB_singleton c cs '8'
    have e3 : strLtB (String.mk (c :: cs)) "c" = decide (c < 'c') := listLtB_singleton c cs 'c'
    unfold linePart4 charPart4
    rw [e1, e2, e3]
    simp [List.headI, decide_eq_true_eq]

theorem linePart8_head (line : String) (h : line ≠ "") :
    linePart8 line = charPart8 line.data.headI := by
  obtain ⟨data⟩ := line
  cases data with
  | nil => exact absurd rfl h
  | cons c cs =>
    have e1 : strLtB (String.mk (c :: cs)) "2" = decide (c < '2') := listLtB_singleton c cs '2'
    have e2 : strLtB (String.mk (c :: cs)) "4" = decide (c < '4') := listLtB_singleton c cs '4'
    have e3 : strLtB (String.mk (c :: cs)) "6" = decide (c < '6') := listLtB_singleton c cs '6'
    have e4 : strLtB (String.mk (c :: cs)) "8" = decide (c < '8') := listLtB_singleton c cs '8'
    have e5 : strLtB (String.mk (c :: cs)) "a" = decide (c < 'a') := listLtB_singleton c cs 'a'
    have e6 : strLtB (String.mk (c :: cs)) "c" = decide (c < 'c') := listLtB_singleton c cs 'c'
    have e7 : strLtB (String.mk (c :: cs)) "e" = decide (c < 'e') := listLtB_singleton c cs 'e'
    unfold linePart8 charPart8
    rw [e1, e2, e3, e4, e5, e6, e7]
    simp [List.headI, decide_eq_true_eq]

theorem processAudienceLine_eq (partObj : Option (Nat × Nat)) (date : String)
    (st : AudienceAcc) (line : String) (hsup : supportedPart partObj) :
    processAudienceLine partObj date st line = .ok (audiencePureStep partObj date st line) := by
  unfold processAudienceLine audiencePureStep audienceLineAccepted
  by_cases he : line = ""
  · cases partObj with
    | none => simp [he]
    | some pq => obtain ⟨pn, np⟩ := pq; simp [he]
  · cases partObj with
    | none => simp [he]
    | some pq =>
      obtain ⟨pn, np⟩ := pq
      unfold supportedPart at hsup
      rcases hsup with h4 | h8
      · subst h4
        by_cases hp : linePart4 line = pn <;> simp [he, hp]
      · subst h8
        by_cases hnp4 : (8 : Nat) = 4
        · cases hnp4
        · by_cases hp : linePart8 line = pn <;> simp [he, hp, hnp4]

theorem foldlM_processAudienceLine (partObj : Option (Nat × Nat)) (date : String)
    (lines : List String) (st : AudienceAcc) (hsup : supportedPart partObj) :
    lines.foldlM (processAudienceLine partObj date) st
      = .ok (lines.foldl (audiencePureStep partObj date) st) := by
  induction lines generalizing st with
  | nil => rfl
  | cons l rest ih =>
    rw [List.foldlM_cons, processAudienceLine_eq partObj date st l hsup]
    show rest.foldlM (processAudienceLine partObj date) (audiencePureStep partObj date st l) = _
    rw [ih, List.foldl_cons]

theorem recomputeAudienceCore_eq (partObj : Option (Nat × Nat))
    (inputs : List (String × List String)) (hsup : supportedPart partObj)
    (hdates : ∀ p ∈ inputs, isValidDateB p.1 = true) :
    recomputeAudienceCore partObj inputs =
      .ok (inputs.foldl (fun st p => p.2.foldl (audiencePureStep partObj p.1) st) {}) := by
  unfold recomputeAudienceCore
  suffices haux : ∀ (inputs' : List (String × List String)) (st : AudienceAcc),
      (∀ p ∈ inputs', isValidDateB p.1 = true) →
      inputs'.foldlM
          (fun st p =>
            if isValidDateB p.1 then p.2.foldlM (processAudienceLine partObj p.1) st
            else .error ("Bad date: " ++ p.1))
          st
        = .ok (inputs'.foldl (fun st p => p.2.foldl (audiencePureStep partObj p.1) st) st) by
    exact haux inputs {} hdates
  intro inputs' st hd
  induction inputs' generalizing st with
  | nil => rfl
  | cons p rest ih =>
    have hd₁ : isValidDateB p.1 = true := hd p (List.mem_cons_self _ _)
    have hd' : ∀ q ∈ rest, isValidDateB q.1 = true :=
      fun q hq => hd q (List.mem_cons_of_mem _ hq)
    rw [List.foldlM_cons, if_pos hd₁, foldlM_processAudienceLine partObj p.1 p.2 st hsup]
    show rest.foldlM _ (p.2.foldl (audiencePureStep partObj p.1) st) = _
    rw [ih _ hd', List.foldl_cons]

theorem audienceLineAccepted_ne_empty {partObj : Option (Nat × Nat)} {line : String}
    (h : audienceLineAccepted partObj line = true) : line ≠ "" := by
  intro he
  subst he
  simp [audienceLineAccepted] at h

theorem mem_audienceIds_accept (st : AudienceAcc) (date line id : String) :
    id ∈ audienceIds (acceptAudienceLine st date line) ↔
      id ∈ audienceIds st ∨ id = substringJS line 0 64 := by
  unfold acceptAudienceLine audienceIds
  by_cases hc : (recordGet st.audienceTimestamps (substringJS line 0 64)).getD "" = ""
  · simp only [hc, if_pos]
    exact mem_recordKeys_recordSet st.audienceTimestamps (substringJS line 0 64) id
      (substringJS line 65 80)
  · simp only [hc, if_neg, Bool.false_eq_true]
    have hmem : substringJS line 0 64 ∈ recordKeys st.audienceTimestamps := by
      by_contra hn
      rw [← recordGet_none_iff] at hn
      rw [hn] at hc
      simp at hc
    constructor
    · exact Or.inl
    · rintro (hm | rfl)
      · exact hm
      · exact hmem

theorem mem_audienceIds_foldl_lines (partObj : Option (Nat × Nat)) (date : String)
    (lines : List String) (st : AudienceAcc) (id : String) :
    id ∈ audienceIds (lines.foldl (audiencePureStep partObj date) st) ↔
      id ∈ audienceIds st ∨
        ∃ line ∈ lines, audienceLineAccepted partObj line = true
          ∧ id = substringJS line 0 64 := by
  induction lines generalizing st with
  | nil => simp
  | cons l rest ih =>
    rw [List.foldl_cons, ih]
    unfold audiencePureStep
    by_cases ha : audienceLineAccepted partObj l = true
    · rw [if_pos ha, mem_audienceIds_accept]
      constructor
      · rintro ((hm | rfl) | ⟨line, hline, hacc, rfl⟩)
        · exact Or.inl hm
        · exact Or.inr ⟨l, List.mem_cons_self _ _, ha, rfl⟩
        · exact Or.inr ⟨line, List.mem_cons_of_mem _ hline, hacc, rfl⟩
      · rintro (hm | ⟨line, hline, hacc, rfl⟩)
        · exact Or.inl (Or.inl hm)
        · rcases List.mem_cons.mp hline with rfl | hline'
          · exact Or.inl (Or.inr rfl)
          · exact Or.inr ⟨line, hline', hacc, rfl⟩
    · rw [if_neg ha]
      constructor
      · rintro (hm | ⟨line, hline, hacc, rfl⟩)
        · exact Or.inl hm
        · exact Or.inr ⟨line, List.mem_cons_of_mem _ hline, hacc, rfl⟩
      · rintro (hm | ⟨line, hline, hacc, rfl⟩)
        · exact Or.inl hm
        · rcases List.mem_cons.mp hline with rfl | hline'
          · exact absurd hacc ha
          · exact Or.inr ⟨line, hline', hacc, rfl⟩

theorem mem_audienceIds_pure_fold (partObj : Option (Nat × Nat))
    (inputs : List (String × List String)) (st : AudienceAcc) (id : String) :
    id ∈ audienceIds
        (inputs.foldl (fun st p => p.2.foldl (audiencePureStep partObj p.1) st) st) ↔
      id ∈ audienceIds st ∨
        ∃ p ∈ inputs, ∃ line ∈ p.2, audienceLineAccepted partObj line = true
          ∧ id = substringJS line 0 64 := by
  induction inputs generalizing st with
  | nil => simp
  | cons p rest ih =>
    rw [List.foldl_cons, ih, mem_audienceIds_foldl_lines]
    constructor
    · rintro ((hm | ⟨line, hline, hacc, rfl⟩) | ⟨q, hq, line, hline, hacc, rfl⟩)
      · exact Or.inl hm
      · exact Or.inr ⟨p, List.mem_cons_self _ _, line, hline, hacc, rfl⟩
      · exact Or.inr ⟨q, List.mem_cons_of_mem _ hq, line, hline, hacc, rfl⟩
    · rintro (hm | ⟨q, hq, line, hline, hacc, rfl⟩)
      · exact Or.inl (Or.inl hm)
      · rcases List.mem_cons.mp hq with rfl | hq'
        · exact Or.inl (Or.inr ⟨line, hline, hacc, rfl⟩)
        · exact Or.inr ⟨q, hq', line, hline, hacc, rfl⟩

theorem headI_take64 (l : List Char) (h : l ≠ []) : (l.take 64).headI = l.headI := by
  cases l with
  | nil => exact absurd rfl h
  | cons c cs => rfl

theorem substringJS_headI (line : String) (h : line ≠ "") :
    (substringJS line 0 64).data.headI = line.data.headI := by
  obtain ⟨data⟩ := line
  have hne : data ≠ [] := by
    intro hd
    exact h (by rw [hd])
  show ((data.drop 0).take 64).headI = data.headI
  rw [List.drop_zero]
  exact headI_take64 data hne

theorem substringJS_ne_empty (line : String) (h : line ≠ "") :
    substringJS line 0 64 ≠ "" := by
  obtain ⟨data⟩ := line
  cases data with
  | nil => exact absurd rfl h
  | cons c cs =>
    intro hsub
    have : ((c :: cs).drop 0).take 64 = [] := congrArg String.data hsub
    simp at this

theorem charPart4_bounds (c : Char) : 1 ≤ charPart4 c ∧ charPart4 c ≤ 4 := by
  unfold charPart4
  split_ifs <;> omega

theorem charPart8_bounds (c : Char) : 1 ≤ charPart8 c ∧ charPart8 c ≤ 8 := by
  unfold charPart8
  split_ifs <;> omega

/-- C6: for `numParts ∈ {4, 8}` and daily audience files whose nonempty
lines start with a 64-lowercase-hex audience id, the per-part runs of the
audience reducer produce pairwise-disjoint distinct-id sets whose union over
`partNum ∈ 1..numParts` is the unsharded run's distinct-id set; a line's part
is decided solely by its first hex character via the stated thresholds, even
though the code compares the whole line against single-character bounds. -/
theorem c6_shardPartition (inputs : List (String × List String)) (numParts : Nat)
    (hnp : numParts = 4 ∨ numParts = 8)
    (hdates : ∀ p ∈ inputs, isValidDateB p.1 = true)
    (hhex : ∀ p ∈ inputs, ∀ line ∈ p.2, line ≠ "" →
      64 ≤ line.data.length ∧ (line.data.take 64).all isLowerHexB = true) :
    shardPartitionStatement inputs numParts := by
  have hsupN : supportedPart none := trivial
  have hsupP : ∀ pn : Nat, supportedPart (some (pn, numParts)) := fun pn => hnp
  -- the part of a nonempty line, and its characterization
  have hdet : ∀ (line : String), line ≠ "" → ∀ pn : Nat,
      (audienceLineAccepted (some (pn, numParts)) line = true ↔
        (if numParts = 4 then charPart4 line.data.headI else charPart8 line.data.headI) = pn) := by
    intro line hline pn
    unfold audienceLineAccepted
    rcases hnp with h4 | h8
    · subst h4
      simp [hline, linePart4_head line hline]
    · subst h8
      simp [hline, linePart8_head line hline]
  have hmem : ∀ (partObj : Option (Nat × Nat)), supportedPart partObj → ∀ id,
      (id ∈ audienceDistinctIds (recomputeAudienceCore partObj inputs) ↔
        ∃ p ∈ inputs, ∃ line ∈ p.2, audienceLineAccepted partObj line = true
          ∧ id = substringJS line 0 64) := by
    intro partObj hsup id
    rw [recomputeAudienceCore_eq partObj inputs hsup hdates]
    show id ∈ audienceIds _ ↔ _
    rw [mem_audienceIds_pure_fold]
    simp [audienceIds, recordKeys]
  refine ⟨?_, ?_, ?_, ?_, ?_⟩
  · rw [recomputeAudienceCore_eq none inputs hsupN hdates]; rfl
  · intro pn
    rw [recomputeAudienceCore_eq (some (pn, numParts)) inputs (hsupP pn) hdates]; rfl
  · intro p q hpq a hp hq
    rcases (hmem _ (hsupP p) a).mp hp with ⟨x, _, line₁, _, hacc₁, hid₁⟩
    rcases (hmem _ (hsupP q) a).mp hq with ⟨y, _, line₂, _, hacc₂, hid₂⟩
    have hne₁ : line₁ ≠ "" := audienceLineAccepted_ne_empty hacc₁
    have hne₂ : line₂ ≠ "" := audienceLineAccepted_ne_empty hacc₂
    have h₁ := (hdet line₁ hne₁ p).mp hacc₁
    have h₂ := (hdet line₂ hne₂ q).mp hacc₂
    have hid : line₁.data.headI = line₂.data.headI := by
      have e₁ := substringJS_headI line₁ hne₁
      have e₂ := substringJS_headI line₂ hne₂
      rw [← e₁, ← e₂, ← hid₁, ← hid₂]
    rcases hnp with h4 | h8
    · subst h4
      simp only [if_pos rfl] at h₁ h₂
      exact hpq (by rw [← h₁, ← h₂, hid])
    · subst h8
      simp only [if_neg (by omega : ¬(8 : Nat) = 4)] at h₁ h₂
      exact hpq (by rw [← h₁, ← h₂, hid])
  · intro a
    rw [hmem none hsupN a]
    constructor
    · rintro ⟨p, hp, line, hline, hacc, hid⟩
      have hne : line ≠ "" := audienceLineAccepted_ne_empty hacc
      refine ⟨if numParts = 4 then charPart4 line.data.headI else charPart8 line.data.headI,
        ?_, ?_, ?_⟩
      · rcases hnp with h4 | h8
        · subst h4; simpa using (charPart4_bounds line.data.headI).1
        · subst h8
          simpa [(by omega : ¬(8 : Nat) = 4)] using (charPart8_bounds line.data.headI).1
      · rcases hnp with h4 | h8
        · subst h4; simpa using (charPart4_bounds line.data.headI).2
        · subst h8
          simpa [(by omega : ¬(8 : Nat) = 4)] using (charPart8_bounds line.data.headI).2
      · rw [hmem _ (hsupP _) a]
        exact ⟨p, hp, line, hline, (hdet line hne _).mpr rfl, hid⟩
    · rintro ⟨pn, _, _, hidp⟩
      rcases (hmem _ (hsupP pn) a).mp hidp with ⟨p, hp, line, hline, hacc, hid⟩
      have hne : line ≠ "" := audienceLineAccepted_ne_empty hacc
      refine ⟨p, hp, line, hline, ?_, hid⟩
      unfold audienceLineAccepted
      simp [hne]
  · intro line hline
    exact ⟨fun _ => linePart4_head line hline, fun _ => linePart8_head line hline⟩

theorem c6_witness :
    ((4 = 4 ∨ 4 = 8)
      ∧ (∀ p ∈ [("2024-03-05",
            [String.mk (List.replicate 64 'a' ++ '\t' :: "202403051000000".data),
             String.mk (List.replicate 64 '7' ++ '\t' :: "202403051000000".data)])],
          isValidDateB p.1 = true)
      ∧ (∀ p ∈ [("2024-03-05",
            [String.mk (List.replicate 64 'a' ++ '\t' :: "202403051000000".data),
             String.mk (List.replicate 64 '7' ++ '\t' :: "202403051000000".data)])],
          ∀ line ∈ p.2, line ≠ "" →
            64 ≤ line.data.length ∧ (line.data.take 64).all isLowerHexB = true))
    ∧ shardPartitionStatement
        [("2024-03-05",
          [String.mk (List.replicate 64 'a' ++ '\t' :: "202403051000000".data),
           String.mk (List.replicate 64 '7' ++ '\t' :: "202403051000000".data)])] 4 :=
  ⟨⟨Or.inl rfl, by decide, by decide⟩,
   c6_shardPartition _ 4 (Or.inl rfl) (by decide) (by decide)⟩

theorem recordSet_of_not_mem {α : Type} (m : List (String × α)) (k : String) (v : α)
    (h : recordGet m k = none) : recordSet m k v = m ++ [(k, v)] := by
  induction m with
  | nil => rfl
  | cons p rest ih =>
    obtain ⟨k₀, v₀⟩ := p
    by_cases h₀ : k₀ = k
    · simp [recordGet, h₀] at h
    · simp only [recordGet, if_neg h₀] at h
      simp [recordSet, h₀, ih h]

theorem recordGet_mem {α : Type} {m : List (String × α)} {k : String} {v : α}
    (h : recordGet m k = some v) : (k, v) ∈ m := by
  induction m with
  | nil => cases h
  | cons p rest ih =>
    obtain ⟨k₀, v₀⟩ := p
    by_cases h₀ : k₀ = k
    · subst h₀
      simp [recordGet] at h
      simp [h]
    · simp only [recordGet, if_neg h₀] at h
      exact List.mem_cons_of_mem _ (ih h)

theorem recordKeys_append {α : Type} (a b : List (String × α)) :
    recordKeys (a ++ b) = recordKeys a ++ recordKeys b := by
  induction a with
  | nil => rfl
  | cons p rest ih => simp [recordKeys, ih]

theorem dedupFirstPairsAux_congr (s₁ s₂ : List String) (l : List (String × String))
    (h : ∀ x, x ∈ s₁ ↔ x ∈ s₂) :
    dedupFirstPairsAux s₁ l = dedupFirstPairsAux s₂ l := by
  induction l generalizing s₁ s₂ with
  | nil => rfl
  | cons p rest ih =>
    obtain ⟨k, v⟩ := p
    by_cases hk : k ∈ s₁
    · simp [dedupFirstPairsAux, hk, (h k).mp hk, ih s₁ s₂ h]
    · have hk₂ : k ∉ s₂ := fun hx => hk ((h k).mpr hx)
      simp only [dedupFirstPairsAux, if_neg hk, if_neg hk₂]
      rw [ih (k :: s₁) (k :: s₂) (by intro x; simp [h x])]

theorem dedupFirstPairsAux_append (seen : List String) (A B : List (String × String)) :
    dedupFirstPairsAux seen (A ++ B) =
      dedupFirstPairsAux seen A ++
        dedupFirstPairsAux (seen ++ recordKeys (dedupFirstPairsAux seen A)) B := by
  induction A generalizing seen with
  | nil =>
    simp only [List.nil_append, dedupFirstPairsAux, recordKeys, List.append_nil]
  | cons p rest ih =>
    obtain ⟨k, v⟩ := p
    by_cases hk : k ∈ seen
    · simp only [List.cons_append, dedupFirstPairsAux, if_pos hk]
      exact ih seen
    · simp only [List.cons_append, dedupFirstPairsAux, if_neg hk, recordKeys, List.cons_append,
        List.append_eq]
      rw [ih (k :: seen)]
      rw [dedupFirstPairsAux_congr ((k :: seen) ++ recordKeys (dedupFirstPairsAux (k :: seen) rest))
        (seen ++ k :: recordKeys (dedupFirstPairsAux (k :: seen) rest)) B
        (by intro x; simp; tauto)]

theorem mem_of_mem_dedupFirstPairsAux {seen : List String} {l : List (String × String)}
    {q : String × String} (h : q ∈ dedupFirstPairsAux seen l) : q ∈ l := by
  induction l generalizing seen with
  | nil => cases h
  | cons p rest ih =>
    obtain ⟨k, v⟩ := p
    by_cases hk : k ∈ seen
    · simp only [dedupFirstPairsAux, if_pos hk] at h
      exact List.mem_cons_of_mem _ (ih h)
    · simp only [dedupFirstPairsAux, if_neg hk] at h
      rcases List.mem_cons.mp h with rfl | h'
      · exact List.mem_cons_self _ _
      · exact List.mem_cons_of_mem _ (ih h')

theorem acceptAudienceLine_chr (st : AudienceAcc) (date line : String)
    (hv : ∀ q ∈ st.audienceTimestamps, q.2 ≠ "") :
    ((acceptAudienceLine st date line).audienceTimestamps =
        if substringJS line 0 64 ∈ recordKeys st.audienceTimestamps then st.audienceTimestamps
        else st.audienceTimestamps ++ [(substringJS line 0 64, substringJS line 65 80)])
    ∧ ((acceptAudienceLine st date line).count =
        if substringJS line 0 64 ∈ recordKeys st.audienceTimestamps then st.count
        else st.count + 1) := by
  unfold acceptAudienceLine
  by_cases hmem : substringJS line 0 64 ∈ recordKeys st.audienceTimestamps
  · cases hg : recordGet st.audienceTimestamps (substringJS line 0 64) with
    | none =>
      rw [recordGet_none_iff] at hg
      exact absurd hmem hg
    | some v =>
      have hne : v ≠ "" := hv _ (recordGet_mem hg)
      simp [hg, hne, hmem]
  · have hg : recordGet st.audienceTimestamps (substringJS line 0 64) = none :=
      (recordGet_none_iff _ _).mpr hmem
    simp [hg, recordSet_of_not_mem _ _ _ hg, hmem]

theorem ts_count_foldl_lines (partObj : Option (Nat × Nat)) (date : String)
    (lines : List String) (st : AudienceAcc)
    (hv : ∀ q ∈ st.audienceTimestamps, q.2 ≠ "")
    (hwf : ∀ line ∈ lines, audienceLineAccepted partObj line = true →
      substringJS line 65 80 ≠ "") :
    ((lines.foldl (audiencePureStep partObj date) st).audienceTimestamps =
        st.audienceTimestamps ++
          dedupFirstPairsAux (recordKeys st.audienceTimestamps)
            ((lines.filter (fun l => audienceLineAccepted partObj l)).map
              (fun l => (substringJS l 0 64, substringJS l 65 80))))
    ∧ ((lines.foldl (audiencePureStep partObj date) st).count =
        st.count +
          (dedupFirstPairsAux (recordKeys st.audienceTimestamps)
            ((lines.filter (fun l => audienceLineAccepted partObj l)).map
              (fun l => (substringJS l 0 64, substringJS l 65 80)))).length)
    ∧ (∀ q ∈ (lines.foldl (audiencePureStep partObj date) st).audienceTimestamps, q.2 ≠ "") := by
  induction lines generalizing st with
  | nil => exact ⟨by simp [dedupFirstPairsAux], by simp [dedupFirstPairsAux], hv⟩
  | cons l rest ih =>
    have hwf' : ∀ line ∈ rest, audienceLineAccepted partObj line = true →
        substringJS line 65 80 ≠ "" :=
      fun line hl => hwf line (List.mem_cons_of_mem _ hl)
    rw [List.foldl_cons]
    by_cases ha : audienceLineAccepted partObj l = true
    · have hstep : audiencePureStep partObj date st l = acceptAudienceLine st date l := by
        unfold audiencePureStep
        rw [if_pos ha]
      rw [hstep]
      have hts := (acceptAudienceLine_chr st date l hv).1
      have hcnt := (acceptAudienceLine_chr st date l hv).2
      by_cases hmem : substringJS l 0 64 ∈ recordKeys st.audienceTimestamps
      · rw [if_pos hmem] at hts hcnt
        have hv' : ∀ q ∈ (acceptAudienceLine st date l).audienceTimestamps, q.2 ≠ "" := by
          rw [hts]; exact hv
        have := ih (acceptAudienceLine st date l) hv' hwf'
        rw [hts, hcnt] at this
        simp only [List.filter_cons, ha, if_pos, List.map_cons, dedupFirstPairsAux,
          if_pos hmem]
        exact this
      · rw [if_neg hmem] at hts hcnt
        have hv' : ∀ q ∈ (acceptAudienceLine st date l).audienceTimestamps, q.2 ≠ "" := by
          rw [hts]
          intro q hq
          rcases List.mem_append.mp hq with h | h
          · exact hv q h
          · simp at h
            rw [h]
            exact hwf l (List.mem_cons_self _ _) ha
        have := ih (acceptAudienceLine st date l) hv' hwf'
        rw [hts, hcnt, recordKeys_append] at this
        have hseen : ∀ x, x ∈ recordKeys st.audienceTimestamps ++
            recordKeys [(substringJS l 0 64, substringJS l 65 80)] ↔
            x ∈ substringJS l 0 64 :: recordKeys st.audienceTimestamps := by
          intro x
          simp [recordKeys]
          tauto
        rw [dedupFirstPairsAux_congr _ _ _ hseen] at this
        simp only [List.filter_cons, ha, if_pos, List.map_cons, dedupFirstPairsAux,
          if_neg hmem]
        refine ⟨?_, ?_, this.2.2⟩
        · rw [this.1]
          simp
        · rw [this.2.1]
          simp
          omega
    · have hstep : audiencePureStep partObj date st l = st := by
        unfold audiencePureStep
        rw [if_neg ha]
      rw [hstep]
      have := ih st hv hwf'
      simpa [List.filter_cons, ha] using this

theorem ts_count_core_fold (partObj : Option (Nat × Nat))
    (inputs : List (String × List String)) (st : AudienceAcc)
    (hv : ∀ q ∈ st.audienceTimestamps, q.2 ≠ "")
    (hwf : ∀ p ∈ inputs, ∀ line ∈ p.2, audienceLineAccepted partObj line = true →
      substringJS line 65 80 ≠ "") :
    ((inputs.foldl (fun st p => p.2.foldl (audiencePureStep partObj p.1) st) st).audienceTimestamps
      = st.audienceTimestamps ++
          dedupFirstPairsAux (recordKeys st.audienceTimestamps)
            (acceptedAudiencePairs partObj inputs))
    ∧ ((inputs.foldl (fun st p => p.2.foldl (audiencePureStep partObj p.1) st) st).count
      = st.count +
          (dedupFirstPairsAux (recordKeys st.audienceTimestamps)
            (acceptedAudiencePairs partObj inputs)).length) := by
  induction inputs generalizing st with
  | nil => simp [acceptedAudiencePairs, dedupFirstPairsAux]
  | cons p rest ih =>
    have hwfp : ∀ line ∈ p.2, audienceLineAccepted partObj line = true →
        substringJS line 65 80 ≠ "" := hwf p (List.mem_cons_self _ _)
    have hwf' : ∀ q ∈ rest, ∀ line ∈ q.2, audienceLineAccepted partObj line = true →
        substringJS line 65 80 ≠ "" := fun q hq => hwf q (List.mem_cons_of_mem _ hq)
    have hlines := ts_count_foldl_lines partObj p.1 p.2 st hv hwfp
    have hpairs : acceptedAudiencePairs partObj (p :: rest) =
        ((p.2.filter (fun l => audienceLineAccepted partObj l)).map
          (fun l => (substringJS l 0 64, substringJS l 65 80)))
        ++ acceptedAudiencePairs partObj rest := by
      simp [acceptedAudiencePairs]
    rw [List.foldl_cons]
    have hih := ih (p.2.foldl (audiencePureStep partObj p.1) st) hlines.2.2 hwf'
    rw [hlines.1, hlines.2.1, recordKeys_append] at hih
    rw [hpairs, dedupFirstPairsAux_append]
    constructor
    · rw [hih.1]
      simp
    · rw [hih.2]
      simp
      omega

theorem utf8Len_append (s t : String) : utf8Len (s ++ t) = utf8Len s + utf8Len t := by
  obtain ⟨a⟩ := s
  obtain ⟨b⟩ := t
  show ((a ++ b).map _).sum = _
  rw [List.map_append, List.sum_append]
  rfl

theorem utf8Len_join (l : List String) : utf8Len (String.join l) = (l.map utf8Len).sum := by
  suffices haux : ∀ (l : List String) (acc : String),
      utf8Len (l.foldl (fun r s => r ++ s) acc) = utf8Len acc + (l.map utf8Len).sum by
    have := haux l ""
    rw [show utf8Len "" = 0 from rfl] at this
    simpa [String.join] using this
  intro l
  induction l with
  | nil => simp
  | cons s rest ih =>
    intro acc
    rw [List.foldl_cons, ih, utf8Len_append, List.map_cons, List.sum_cons]
    omega

theorem utf8ListLen (l : List Char) (h : ∀ c ∈ l, c.toNat ≤ 127) :
    (l.map (fun c =>
      if c.toNat ≤ 127 then 1 else if c.toNat ≤ 2047 then 2
      else if c.toNat ≤ 65535 then 3 else 4)).sum = l.length := by
  induction l with
  | nil => rfl
  | cons c cs ih =>
    have hc : c.toNat ≤ 127 := h c (List.mem_cons_self _ _)
    have hcs : ∀ c ∈ cs, c.toNat ≤ 127 := fun x hx => h x (List.mem_cons_of_mem _ hx)
    simp only [List.map_cons, List.sum_cons, List.length_cons, if_pos hc]
    rw [ih hcs]
    omega

theorem utf8Len_eq_length (s : String) (h : ∀ c ∈ s.data, c.toNat ≤ 127) :
    utf8Len s = s.data.length := by
  obtain ⟨l⟩ := s
  exact utf8ListLen l h

theorem toNat_le_of_isDigit (c : Char) (h : c.isDigit = true) : c.toNat ≤ 127 := by
  simp only [Char.isDigit, Bool.and_eq_true, decide_eq_true_eq] at h
  have h2 : c.toNat ≤ ('9' : Char).toNat := h.2
  have h9 : ('9' : Char).toNat = 57 := rfl
  omega

theorem toNat_le_of_isLowerHexB (c : Char) (h : isLowerHexB c = true) : c.toNat ≤ 127 := by
  unfold isLowerHexB at h
  simp only [Bool.or_eq_true, Bool.and_eq_true, decide_eq_true_eq] at h
  rcases h with h | h
  · exact toNat_le_of_isDigit c h
  · have h2 : c.toNat ≤ ('f' : Char).toNat := h.2
    have hf : ('f' : Char).toNat = 102 := rfl
    omega

theorem wf_parts (line : String) (hwf : audienceLineWellFormedB line = true) :
    ((substringJS line 0 64).data.length = 64
      ∧ ∀ c ∈ (substringJS line 0 64).data, isLowerHexB c = true)
    ∧ ((substringJS line 65 80).data.length = 15
      ∧ ∀ c ∈ (substringJS line 65 80).data, c.isDigit = true) := by
  unfold audienceLineWellFormedB at hwf
  simp only [Bool.and_eq_true, beq_iff_eq, List.all_eq_true] at hwf
  obtain ⟨⟨⟨hlen, hhex⟩, _⟩, hdig⟩ := hwf
  refine ⟨⟨?_, ?_⟩, ?_, ?_⟩
  · show ((line.data.drop 0).take 64).length = 64
    rw [List.drop_zero, List.length_take]
    omega
  · intro c hc
    apply hhex
    show c ∈ line.data.take 64
    have : (line.data.drop 0).take 64 = line.data.take 64 := by rw [List.drop_zero]
    rw [← this]
    exact hc
  · show ((line.data.drop 65).take 15).length = 15
    rw [List.length_take, List.length_drop]
    omega
  · intro c hc
    apply hdig
    show c ∈ line.data.drop 65
    exact List.mem_of_mem_take hc

theorem ts_ne_empty_of_wf (line : String) (hwf : audienceLineWellFormedB line = true) :
    substringJS line 65 80 ≠ "" := by
  intro he
  have hlen := ((wf_parts line hwf).2).1
  rw [he] at hlen
  simp at hlen

theorem utf8Len_audienceLine (line : String) (hwf : audienceLineWellFormedB line = true) :
    utf8Len (substringJS line 0 64 ++ "\t" ++ substringJS line 65 80 ++ "\n") = 81 := by
  obtain ⟨⟨hidlen, hidhex⟩, htslen, htsdig⟩ := wf_parts line hwf
  have h1 : utf8Len (substringJS line 0 64) = 64 := by
    rw [utf8Len_eq_length _ (fun c hc => toNat_le_of_isLowerHexB c (hidhex c hc)), hidlen]
  have h2 : utf8Len (substringJS line 65 80) = 15 := by
    rw [utf8Len_eq_length _ (fun c hc => toNat_le_of_isDigit c (htsdig c hc)), htslen]
  rw [utf8Len_append, utf8Len_append, utf8Len_append, h1, h2]
  rfl

theorem mem_acceptedAudiencePairs {partObj : Option (Nat × Nat)}
    {inputs : List (String × List String)} {q : String × String}
    (h : q ∈ acceptedAudiencePairs partObj inputs) :
    ∃ p ∈ inputs, ∃ line ∈ p.2, audienceLineAccepted partObj line = true
      ∧ q = (substringJS line 0 64, substringJS line 65 80) := by
  unfold acceptedAudiencePairs at h
  rw [List.mem_flatMap] at h
  obtain ⟨p, hp, hq⟩ := h
  rw [List.mem_map] at hq
  obtain ⟨line, hline, rfl⟩ := hq
  rw [List.mem_filter] at hline
  exact ⟨p, hp, line, hline.1, hline.2, rfl⟩

/-- C7: `recomputeAudienceForMonth` returns
`contentLength = (64 + 1 + 15 + 1) × count` with `count` the number of
distinct audience ids accepted for the (month, part); provided every
accepted line is a 64-hex id, a tab, and a 15-character timestamp, the
monthly audience blob consists of exactly `count` lines
`<audienceId>\t<timestamp>\n` in first-insertion order, totalling exactly
`contentLength` bytes. -/
theorem c7_audienceBlobShape (partObj : Option (Nat × Nat))
    (inputs : List (String × List String)) (hsup : supportedPart partObj)
    (hdates : ∀ p ∈ inputs, isValidDateB p.1 = true)
    (hwf : ∀ p ∈ inputs, ∀ line ∈ p.2, audienceLineAccepted partObj line = true →
      audienceLineWellFormedB line = true) :
    audienceBlobStatement partObj inputs := by
  have hcore := recomputeAudienceCore_eq partObj inputs hsup hdates
  constructor
  · rw [hcore]; rfl
  intro st hst
  rw [hcore] at hst
  cases hst
  have hfold := ts_count_core_fold partObj inputs {} (by intro q hq; cases hq)
    (fun p hp line hline hacc => ts_ne_empty_of_wf line (hwf p hp line hline hacc))
  have hts : (inputs.foldl (fun st p => p.2.foldl (audiencePureStep partObj p.1) st)
      ({} : AudienceAcc)).audienceTimestamps
      = dedupFirstPairs (acceptedAudiencePairs partObj inputs) := by
    rw [hfold.1]
    rfl
  have hcnt : (inputs.foldl (fun st p => p.2.foldl (audiencePureStep partObj p.1) st)
      ({} : AudienceAcc)).count
      = (dedupFirstPairs (acceptedAudiencePairs partObj inputs)).length := by
    rw [hfold.2]
    simp [dedupFirstPairs, recordKeys]
  refine ⟨hts, hcnt, rfl, ?_, ?_⟩
  · unfold audienceBlobText
    rw [hts]
  · unfold audienceBlobText audienceContentLength
    rw [hts, hcnt, utf8Len_join, List.map_map]
    have hconst : (dedupFirstPairs (acceptedAudiencePairs partObj inputs)).map
        ((fun s => utf8Len s) ∘ (fun q => q.1 ++ "\t" ++ q.2 ++ "\n"))
        = (dedupFirstPairs (acceptedAudiencePairs partObj inputs)).map (fun _ => 81) := by
      apply List.map_congr_left
      intro q hq
      have hqmem : q ∈ acceptedAudiencePairs partObj inputs :=
        mem_of_mem_dedupFirstPairsAux hq
      obtain ⟨p, hp, line, hline, hacc, rfl⟩ := mem_acceptedAudiencePairs hqmem
      exact utf8Len_audienceLine line (hwf p hp line hline hacc)
    rw [hconst]
    have : ∀ (l : List (String × String)), (l.map (fun _ => (81 : Nat))).sum = 81 * l.length := by
      intro l
      induction l with
      | nil => rfl
      | cons x xs ih =>
        simp [ih]
        omega
    rw [this]

theorem c7_witness :
    (supportedPart (some (2, 4))
      ∧ (∀ p ∈ [("2024-03-05",
            [String.mk (List.replicate 64 'a' ++ '\t' :: "202403051000000".data),
             String.mk (List.replicate 64 '7' ++ '\t' :: "202403051000000".data),
             String.mk (List.replicate 64 '7' ++ '\t' :: "202403051200000".data)])],
          isValidDateB p.1 = true)
      ∧ (∀ p ∈ [("2024-03-05",
            [String.mk (List.replicate 64 'a' ++ '\t' :: "202403051000000".data),
             String.mk (List.replicate 64 '7' ++ '\t' :: "202403051000000".data),
             String.mk (List.replicate 64 '7' ++ '\t' :: "202403051200000".data)])],
          ∀ line ∈ p.2, audienceLineAccepted (some (2, 4)) line = true →
            audienceLineWellFormedB line = true))
    ∧ audienceBlobStatement (some (2, 4))
        [("2024-03-05",
          [String.mk (List.replicate 64 'a' ++ '\t' :: "202403051000000".data),
           String.mk (List.replicate 64 '7' ++ '\t' :: "202403051000000".data),
           String.mk (List.replicate 64 '7' ++ '\t' :: "202403051200000".data)])] :=
  ⟨⟨Or.inl rfl, by decide, by decide⟩,
   c7_audienceBlobShape (some (2, 4)) _ (Or.inl rfl) (by decide) (by decide)⟩

/-- C8 counterexample: a request whose `phases` holds the unrecognized token
`bogus` beside `dailies` is not rejected — the parser silently drops the bad
token and returns a request whose phases are just `dailies`. -/
theorem c8_counterexample :
    tryParseRecomputeShowSummariesForMonthRequest "update" "/work/recompute-show-summaries"
        (some [("show", String.mk (List.replicate 32 'a')), ("month", "2024-03"),
               ("phases", "dailies,bogus")])
      = .ok (some
          { showUuid := String.mk (List.replicate 32 'a')
            month := "2024-03"
            log := false
            sequential := false
            phases := some ["dailies"]
            startDay := none
            maxDays := none }) := by decide

/-- C8 (amended): the parser rejects a bad show uuid or month before any
I/O, but phase tokens outside the recognized set are not rejected: they are
silently filtered out of `phases` and the request succeeds with the
remaining recognized tokens. -/
theorem c8_amended (showUuid month phasesStr : String)
    (hu : isValidUuidB showUuid = true) (hm : isValidMonthB month = true) :
    tryParseRecomputeShowSummariesForMonthRequest "update" "/work/recompute-show-summaries"
        (some [("show", showUuid), ("month", month), ("phases", phasesStr)])
      = .ok (some
          { showUuid := showUuid
            month := month
            log := false
            sequential := false
            phases := if phasesStr = "" then none
                      else some ((splitJS phasesStr ',').filter isPhase)
            startDay := none
            maxDays := none }) := by
  unfold tryParseRecomputeShowSummariesForMonthRequest
  simp only [recordGet, if_pos rfl, if_neg, hu, hm]
  norm_num
  by_cases hp : phasesStr = "" <;> simp [hp, hu, hm, recordGet] <;>
    exact ⟨by decide, by decide, rfl⟩

theorem c8_witness :
    (isValidUuidB (String.mk (List.replicate 32 'b')) = true
      ∧ isValidMonthB "2024-04" = true)
    ∧ tryParseRecomputeShowSummariesForMonthRequest "update" "/work/recompute-show-summaries"
        (some [("show", String.mk (List.replicate 32 'b')), ("month", "2024-04"),
               ("phases", "aggregates,nonsense")])
      = .ok (some
          { showUuid := String.mk (List.replicate 32 'b')
            month := "2024-04"
            log := false
            sequential := false
            phases := if ("aggregates,nonsense" : String) = "" then none
                      else some ((splitJS "aggregates,nonsense" ',').filter isPhase)
            startDay := none
            maxDays := none }) :=
  ⟨⟨by decide, by decide⟩,
   c8_amended (String.mk (List.replicate 32 'b')) "2024-04" "aggregates,nonsense"
     (by decide) (by decide)⟩

/-- C9: with the first two audience-blob put attempts failing retryably, a
third successful attempt makes the wrapped put (and, with a good summary
put, the whole write phase) succeed; a third retryable failure propagates
the transient error and fails the phase; and the summary put is a single
unretried call whose failure always fails the phase. -/
theorem c9_retryBound (f : Nat → PutResult) (g : PutResult)
    (h0 : f 0 = .err true) (h1 : f 1 = .err true) :
    (f 2 = .ok →
      putAudienceWithRetries f = .ok ()
        ∧ (g = .ok → audienceWritesSucceed (audienceWritePhase f g) = true))
    ∧ (f 2 = .err true →
        putAudienceWithRetries f = .error true
          ∧ audienceWritesSucceed (audienceWritePhase f g) = false)
    ∧ (∀ r, g = .err r → audienceWritesSucceed (audienceWritePhase f g) = false)
    ∧ (putAudienceSummaryOnce g = .ok () ↔ g = .ok) := by
  refine ⟨?_, ?_, ?_, ?_⟩
  · intro h2
    have hput : putAudienceWithRetries f = .ok () := by
      unfold putAudienceWithRetries
      unfold executeWithRetries
      rw [h0]
      unfold executeWithRetries
      rw [h1]
      unfold executeWithRetries
      rw [h2]
    refine ⟨hput, ?_⟩
    intro hg
    simp [audienceWritesSucceed, audienceWritePhase, hput, putAudienceSummaryOnce, hg,
      Except.isOk, Except.toBool]
  · intro h2
    have hput : putAudienceWithRetries f = .error true := by
      unfold putAudienceWithRetries
      unfold executeWithRetries
      rw [h0]
      unfold executeWithRetries
      rw [h1]
      unfold executeWithRetries
      rw [h2]
    refine ⟨hput, ?_⟩
    simp [audienceWritesSucceed, audienceWritePhase, hput, Except.isOk, Except.toBool]
  · intro r hg
    simp [audienceWritesSucceed, audienceWritePhase, putAudienceSummaryOnce, hg,
      Except.isOk, Except.toBool]
  · cases g <;> simp [putAudienceSummaryOnce]

theorem c9_witness :
    (((fun n => if n ≤ 1 then PutResult.err true else PutResult.ok) 0 = PutResult.err true)
      ∧ ((fun n => if n ≤ 1 then PutResult.err true else PutResult.ok) 1 = PutResult.err true))
    ∧ (((fun n => if n ≤ 1 then PutResult.err true else PutResult.ok) 2 = PutResult.ok →
        putAudienceWithRetries (fun n => if n ≤ 1 then PutResult.err true else PutResult.ok)
            = .ok ()
          ∧ (PutResult.ok = PutResult.ok →
              audienceWritesSucceed (audienceWritePhase
                (fun n => if n ≤ 1 then PutResult.err true else PutResult.ok) PutResult.ok)
                = true))
      ∧ ((fun n => if n ≤ 1 then PutResult.err true else PutResult.ok) 2 = PutResult.err true →
          putAudienceWithRetries (fun n => if n ≤ 1 then PutResult.err true else PutResult.ok)
              = .error true
            ∧ audienceWritesSucceed (audienceWritePhase
                (fun n => if n ≤ 1 then PutResult.err true else PutResult.ok) PutResult.ok)
                = false)
      ∧ (∀ r, PutResult.ok = PutResult.err r →
          audienceWritesSucceed (audienceWritePhase
            (fun n => if n ≤ 1 then PutResult.err true else PutResult.ok) PutResult.ok)
            = false)
      ∧ (putAudienceSummaryOnce PutResult.ok = .ok () ↔ PutResult.ok = PutResult.ok)) :=
  ⟨⟨by decide, by decide⟩,
   c9_retryBound (fun n => if n ≤ 1 then PutResult.err true else PutResult.ok) PutResult.ok
     (by decide) (by decide)⟩

theorem strData_append (s t : String) : (s ++ t).data = s.data ++ t.data := by
  obtain ⟨a⟩ := s
  obtain ⟨b⟩ := t
  rfl

theorem isValidMonthB_length {m : String} (h : isValidMonthB m = true) :
    m.data.length = 7 := by
  unfold isValidMonthB at h
  split at h
  · rename_i heq
    rw [heq]
    rfl
  · cases h

theorem isValidDateB_length {d : String} (h : isValidDateB d = true) :
    d.data.length = 10 := by
  unfold isValidDateB at h
  split at h
  · rename_i heq
    rw [heq]
    rfl
  · cases h

theorem prefix_append_iff_of_length_le {α : Type} (X Y T : List α)
    (h : X.length ≤ Y.length) : (X <+: Y ++ T) ↔ X <+: Y := by
  constructor
  · intro hp
    rw [List.prefix_iff_eq_take] at hp ⊢
    rw [List.take_append_of_le_length h] at hp
    exact hp
  · intro hp
    exact hp.trans (List.prefix_append Y T)

/-- C10: the audience listing prefix `audiences/show/<u>/<u>-<month>-` ends
in a dash, so it matches exactly the daily audience keys of that month
(`<u>-<YYYY-MM-DD>.all.audience.txt` with the date inside the month) and can
never match a monthly audience output key `<u>-<YYYY-MM>.<part|all>.audience.txt`,
whose month is followed by a dot. -/
theorem c10_listingIsolation (u m : String) (hm : isValidMonthB m = true) :
    listingIsolationStatement u m := by
  have hmlen := isValidMonthB_length hm
  constructor
  · intro d hd
    have hdlen := isValidDateB_length hd
    unfold computeAudienceKeyPrefix computeAudienceKey
    simp only [strData_append, List.append_assoc, Option.getD_none]
    rw [List.prefix_append_right_inj, List.prefix_append_right_inj,
      List.prefix_append_right_inj, List.prefix_append_right_inj,
      List.prefix_append_right_inj]
    rw [prefix_append_iff_of_length_le _ d.data _ (by
      rw [List.length_append, hmlen, hdlen]
      decide)]
  · intro m' hm' part
    have hm'len := isValidMonthB_length hm'
    unfold computeAudienceKeyPrefix computeAudienceKey
    simp only [strData_append, List.append_assoc]
    rw [List.prefix_append_right_inj, List.prefix_append_right_inj,
      List.prefix_append_right_inj, List.prefix_append_right_inj,
      List.prefix_append_right_inj]
    rintro ⟨t, ht⟩
    simp only [List.append_assoc] at ht
    have h7 := congrArg (fun l => l[7]?) ht
    simp only [] at h7
    rw [List.getElem?_append_right (le_of_eq hmlen), hmlen,
      List.getElem?_append_right (le_of_eq hm'len), hm'len] at h7
    simp at h7

theorem c10_witness :
    (isValidMonthB "2024-03" = true
      ∧ isValidDateB "2024-03-05" = true
      ∧ isValidMonthB "2024-03" = true)
    ∧ listingIsolationStatement "aaaabbbbccccddddeeeeffff000011112" "2024-03" :=
  ⟨⟨by decide, by decide, by decide⟩,
   c10_listingIsolation "aaaabbbbccccddddeeeeffff000011112" "2024-03" (by decide)⟩

end OP3

